import Mathlib

/-!
# APM event extraction and sampling of the trace agent

A shallow embedding of the extractors (`event/extractor`, `cmd/trace-agent`),
the event samplers and the sampler chain (`event/sampler`) and of
`model.ProcessedTrace`, followed by the properties proved about them.

Conventions of the embedding:
* a Go `map[string]V` is an association list read with `GoMap.get` (the
  comma-ok lookup) and measured with `GoMap.len`;
* `float64` values (rates, metric values, events per second) are rationals;
* `uint64` identifiers are natural numbers; an `int` or `int64` is an `Int` that
  the conversion `goInt` and the sum `wrapInt64` keep within 64 bits;
* a pointer that the code dereferences without a nil check is the value it
  points to, a pointer that is nil-checked is an `Option`;
* code with side effects (samplers, rate counters, callbacks) passes the
  mutable world explicitly as a state of an arbitrary type `σ`.
-/

namespace TraceAgent

/-! ## Data model -/

/-- Go `float64` rates and metric values. -/
abbrev Rate := ℚ

/-- Go `map[string]V`: an association list, the first binding of a key is the
one the map holds. -/
abbrev GoMap (V : Type) := List (String × V)

/-- The comma-ok lookup `v, ok := m[k]`: `some v` when `ok`, `none` otherwise. -/
def GoMap.get {V : Type} (m : GoMap V) (k : String) : Option V :=
  List.lookup k m

/-- Go `len(m)`; only compared with zero by the code embedded here. -/
def GoMap.len {V : Type} (m : GoMap V) : Nat :=
  List.length m

/-- Go conversion `int(p)` of a `float64` to the 64-bit `int`: truncation toward
zero when the truncated value is in the range of `int64`. Out of that range Go
leaves the result to the implementation; the embedding takes the value the
conversion has on amd64, the smallest `int64`. -/
def goInt (p : Rate) : Int :=
  let truncated := Int.tdiv p.num (p.den : Int)
  if -2 ^ 63 ≤ truncated ∧ truncated < 2 ^ 63 then truncated else -2 ^ 63

/-- Modelled from the spec: the type `model.Span` (its declaration is not among
the sources): the identifier triple, service, operation and resource names,
start and duration in nanoseconds, the error flag, and the metrics and meta
maps. Every field defaults to its Go zero value. -/
structure Span where
  TraceID : Nat := 0
  SpanID : Nat := 0
  ParentID : Nat := 0
  Service : String := ""
  Name : String := ""
  Resource : String := ""
  Start : Int := 0
  Duration : Int := 0
  Error : Int := 0
  Metrics : GoMap Rate := []
  Meta : GoMap String := []
  deriving DecidableEq, Repr

/-- Modelled from the spec: the type `model.WeightedSpan` (its declaration is not
among the sources): a span together with its weight and its top-level flag. -/
structure WeightedSpan where
  Weight : Rate := 0
  TopLevel : Bool := false
  Span : Span := {}
  deriving DecidableEq, Repr

/-- The struct `model.ProcessedTrace` of `model/processed_trace.go`. `Root` is a
nil-checked pointer. The `Sublayers` map is read by none of the embedded code
and is left out. -/
structure ProcessedTrace where
  Trace : List Span := []
  WeightedTrace : List WeightedSpan := []
  Root : Option Span := none
  Env : String := ""
  deriving DecidableEq, Repr

/-- Modelled from the spec: the type `model.APMEvent` (its declaration is not
among the sources): a reference to one span and the flag telling whether the
enclosing trace was sampled. -/
structure APMEvent where
  Span : Span := {}
  TraceSampled : Bool := false
  deriving DecidableEq, Repr

/-- Modelled from the spec: the constant `constants.SamplingPriorityKey` (its
declaration is not among the sources), the literal key `_sampling_priority_v1`. -/
def SamplingPriorityKey : String := "_sampling_priority_v1"

/-- The method `ProcessedTrace.GetSamplingPriority` of `model/processed_trace.go`:
the pair `(priority, ok)`. -/
def ProcessedTrace.GetSamplingPriority (pt : ProcessedTrace) : Int × Bool :=
  match pt.Root with
  | none => (0, false)
  | some root =>
    match root.Metrics.get SamplingPriorityKey with
    | some p => (goInt p, true)
    | none => (goInt 0, false)

/-! ## Extractors of `event/extractor`

The function `sampler.SampleByRate` is not among the sources; the extractors
take it as the parameter `SampleByRate`. -/

/-- The struct `AnalyzedExtractor` of `event/extractor/analyzed.go`. -/
structure AnalyzedExtractor where
  analyzedSpansByService : GoMap (GoMap Rate)
  deriving DecidableEq, Repr

/-- The constructor `NewAnalyzed`. -/
def NewAnalyzed (analyzedSpansByService : GoMap (GoMap Rate)) : AnalyzedExtractor :=
  { analyzedSpansByService := analyzedSpansByService }

/-- The method `AnalyzedExtractor.shouldAnalyze`. -/
def AnalyzedExtractor.shouldAnalyze (SampleByRate : Nat → Rate → Bool)
    (s : AnalyzedExtractor) (span : WeightedSpan) (hasPriority : Bool) (priority : Int) :
    Bool :=
  match s.analyzedSpansByService.get span.Span.Service with
  | some operations =>
    match operations.get span.Span.Name with
    | some analyzeRate =>
      let highPriority := hasPriority && decide (priority ≥ 2)
      if highPriority || SampleByRate span.Span.TraceID analyzeRate then true else false
    | none => false
  | none => false

/-- The `for ... range t.WeightedTrace` loop of `AnalyzedExtractor.Extract`, with
the slice `events` built so far. -/
def AnalyzedExtractor.extractLoop (SampleByRate : Nat → Rate → Bool)
    (s : AnalyzedExtractor) (sampledTrace hasPriority : Bool) (priority : Int) :
    List WeightedSpan → List APMEvent → List APMEvent
  | [], events => events
  | span :: rest, events =>
    if s.shouldAnalyze SampleByRate span hasPriority priority then
      AnalyzedExtractor.extractLoop SampleByRate s sampledTrace hasPriority priority rest
        (events ++ [{ Span := span.Span, TraceSampled := sampledTrace }])
    else
      AnalyzedExtractor.extractLoop SampleByRate s sampledTrace hasPriority priority rest events

/-- The method `AnalyzedExtractor.Extract`. -/
def AnalyzedExtractor.Extract (SampleByRate : Nat → Rate → Bool)
    (s : AnalyzedExtractor) (t : ProcessedTrace) (sampledTrace : Bool) : List APMEvent :=
  let (priority, hasPriority) := t.GetSamplingPriority
  AnalyzedExtractor.extractLoop SampleByRate s sampledTrace hasPriority priority
    t.WeightedTrace []

/-- The struct `LegacyAnalyzedExtractor` of `event/extractor/analyzed_legacy.go`. -/
structure LegacyAnalyzedExtractor where
  analyzedRateByService : GoMap Rate
  deriving DecidableEq, Repr

/-- The constructor `NewLegacyAnalyzed`. -/
def NewLegacyAnalyzed (analyzedRateByService : GoMap Rate) : LegacyAnalyzedExtractor :=
  { analyzedRateByService := analyzedRateByService }

/-- The method `LegacyAnalyzedExtractor.shouldAnalyze`. -/
def LegacyAnalyzedExtractor.shouldAnalyze (SampleByRate : Nat → Rate → Bool)
    (s : LegacyAnalyzedExtractor) (span : WeightedSpan) : Bool :=
  if !span.TopLevel then false
  else
    match s.analyzedRateByService.get span.Span.Service with
    | some analyzeRate =>
      if SampleByRate span.Span.TraceID analyzeRate then true else false
    | none => false

/-- The `for ... range t.WeightedTrace` loop of `LegacyAnalyzedExtractor.Extract`. -/
def LegacyAnalyzedExtractor.extractLoop (SampleByRate : Nat → Rate → Bool)
    (s : LegacyAnalyzedExtractor) (sampledTrace : Bool) :
    List WeightedSpan → List APMEvent → List APMEvent
  | [], events => events
  | span :: rest, events =>
    if s.shouldAnalyze SampleByRate span then
      LegacyAnalyzedExtractor.extractLoop SampleByRate s sampledTrace rest
        (events ++ [{ Span := span.Span, TraceSampled := sampledTrace }])
    else
      LegacyAnalyzedExtractor.extractLoop SampleByRate s sampledTrace rest events

/-- The method `LegacyAnalyzedExtractor.Extract`. -/
def LegacyAnalyzedExtractor.Extract (SampleByRate : Nat → Rate → Bool)
    (s : LegacyAnalyzedExtractor) (t : ProcessedTrace) (sampledTrace : Bool) : List APMEvent :=
  LegacyAnalyzedExtractor.extractLoop SampleByRate s sampledTrace t.WeightedTrace []

/-- The struct `DisabledExtractor` of `event/extractor/disabled.go`. -/
structure DisabledExtractor where
  deriving DecidableEq, Repr

/-- The method `DisabledExtractor.Extract`: the nil slice. -/
def DisabledExtractor.Extract (_s : DisabledExtractor) (_t : ProcessedTrace)
    (_sampledTrace : Bool) : List APMEvent :=
  []

/-- Modelled from the spec: the type `config.AgentConfig` (its declaration is not
among the sources), reduced to the fields the embedded code reads: the current
and legacy extraction policies, the per-trace cap and the events-per-second
target. -/
structure AgentConfig where
  AnalyzedSpansByService : GoMap (GoMap Rate) := []
  AnalyzedRateByServiceLegacy : GoMap Rate := []
  MaxEventsPerTrace : Int := 0
  MaxEPS : Rate := 0
  deriving DecidableEq, Repr

/-- The interface `Extractor` of `event/extractor/extractor.go`, closed over the
three types of the package that implement it. -/
inductive Extractor where
  | analyzed (s : AnalyzedExtractor)
  | legacyAnalyzed (s : LegacyAnalyzedExtractor)
  | disabled (s : DisabledExtractor)
  deriving DecidableEq, Repr

/-- Dynamic dispatch of `Extractor.Extract`. -/
def Extractor.Extract (SampleByRate : Nat → Rate → Bool) (x : Extractor)
    (t : ProcessedTrace) (sampledTrace : Bool) : List APMEvent :=
  match x with
  | .analyzed s => s.Extract SampleByRate t sampledTrace
  | .legacyAnalyzed s => s.Extract SampleByRate t sampledTrace
  | .disabled s => s.Extract t sampledTrace

/-- The function `FromConf` of `event/extractor/extractor.go`. -/
def eventextractor.FromConf (conf : AgentConfig) : Extractor :=
  if conf.AnalyzedSpansByService.len > 0 then
    .analyzed (NewAnalyzed conf.AnalyzedSpansByService)
  else if conf.AnalyzedRateByServiceLegacy.len > 0 then
    .legacyAnalyzed (NewLegacyAnalyzed conf.AnalyzedRateByServiceLegacy)
  else
    .disabled {}

/-! ## Transaction samplers of `cmd/trace-agent`

`transaction_sampler.go` works on the package's own `processedTrace`, whose
declaration and `getSamplingPriority` method are not among the sources; the
embedding reads them as `ProcessedTrace` and `GetSamplingPriority`. -/

/-- The struct `disabledTransactionSampler`. -/
structure disabledTransactionSampler where
  deriving DecidableEq, Repr

/-- The method `disabledTransactionSampler.Extract`: the nil slice. -/
def disabledTransactionSampler.Extract (_s : disabledTransactionSampler)
    (_t : ProcessedTrace) : List Span :=
  []

/-- The struct `transactionSampler`. -/
structure transactionSampler where
  analyzedSpansByService : GoMap (GoMap Rate)
  maxEventsPerTrace : Int
  deriving DecidableEq, Repr

/-- The constructor `newTransactionSampler`. -/
def newTransactionSampler (analyzedSpansByService : GoMap (GoMap Rate))
    (maxEventsPerTrace : Int) : transactionSampler :=
  { analyzedSpansByService := analyzedSpansByService
    maxEventsPerTrace := maxEventsPerTrace }

/-- The method `transactionSampler.shouldAnalyze`. -/
def transactionSampler.shouldAnalyze (SampleByRate : Nat → Rate → Bool)
    (s : transactionSampler) (span : WeightedSpan) (hasPriority : Bool) (priority : Int) :
    Bool :=
  match s.analyzedSpansByService.get span.Span.Service with
  | some operations =>
    match operations.get span.Span.Name with
    | some analyzeRate =>
      let highPriority := hasPriority && decide (priority ≥ 2)
      if highPriority || SampleByRate span.Span.TraceID analyzeRate then true else false
    | none => false
  | none => false

/-- The `for ... range t.WeightedTrace` loop of `transactionSampler.Extract`, with
the slice `transactions` built so far; `break` returns it. -/
def transactionSampler.extractLoop (SampleByRate : Nat → Rate → Bool)
    (s : transactionSampler) (hasPriority : Bool) (priority : Int) :
    List WeightedSpan → List Span → List Span
  | [], transactions => transactions
  | span :: rest, transactions =>
    if s.shouldAnalyze SampleByRate span hasPriority priority then
      if s.maxEventsPerTrace ≥ 0 ∧ (transactions.length : Int) ≥ s.maxEventsPerTrace then
        transactions
      else
        transactionSampler.extractLoop SampleByRate s hasPriority priority rest
          (transactions ++ [span.Span])
    else
      transactionSampler.extractLoop SampleByRate s hasPriority priority rest transactions

/-- The method `transactionSampler.Extract`. -/
def transactionSampler.Extract (SampleByRate : Nat → Rate → Bool)
    (s : transactionSampler) (t : ProcessedTrace) : List Span :=
  let (priority, hasPriority) := t.GetSamplingPriority
  transactionSampler.extractLoop SampleByRate s hasPriority priority t.WeightedTrace []

/-- The struct `legacyTransactionSampler`. -/
structure legacyTransactionSampler where
  analyzedRateByService : GoMap Rate
  maxEventsPerTrace : Int
  deriving DecidableEq, Repr

/-- The constructor `newLegacyTransactionSampler`. -/
def newLegacyTransactionSampler (analyzedRateByService : GoMap Rate)
    (maxEventsPerTrace : Int) : legacyTransactionSampler :=
  { analyzedRateByService := analyzedRateByService
    maxEventsPerTrace := maxEventsPerTrace }

/-- The method `legacyTransactionSampler.shouldAnalyze`. -/
def legacyTransactionSampler.shouldAnalyze (SampleByRate : Nat → Rate → Bool)
    (s : legacyTransactionSampler) (span : WeightedSpan) : Bool :=
  if !span.TopLevel then false
  else
    match s.analyzedRateByService.get span.Span.Service with
    | some analyzeRate =>
      if SampleByRate span.Span.TraceID analyzeRate then true else false
    | none => false

/-- The `for ... range t.WeightedTrace` loop of `legacyTransactionSampler.Extract`:
the cap is tested first, `break` returns the slice built so far. -/
def legacyTransactionSampler.extractLoop (SampleByRate : Nat → Rate → Bool)
    (s : legacyTransactionSampler) : List WeightedSpan → List Span → List Span
  | [], transactions => transactions
  | span :: rest, transactions =>
    if s.maxEventsPerTrace ≥ 0 ∧ (transactions.length : Int) ≥ s.maxEventsPerTrace then
      transactions
    else if s.shouldAnalyze SampleByRate span then
      legacyTransactionSampler.extractLoop SampleByRate s rest (transactions ++ [span.Span])
    else
      legacyTransactionSampler.extractLoop SampleByRate s rest transactions

/-- The method `legacyTransactionSampler.Extract`. -/
def legacyTransactionSampler.Extract (SampleByRate : Nat → Rate → Bool)
    (s : legacyTransactionSampler) (t : ProcessedTrace) : List Span :=
  legacyTransactionSampler.extractLoop SampleByRate s t.WeightedTrace []

/-- The interface `TransactionSampler`, closed over the three types of the
package that implement it. -/
inductive TransactionSampler where
  | current (s : transactionSampler)
  | legacy (s : legacyTransactionSampler)
  | disabled (s : disabledTransactionSampler)
  deriving DecidableEq, Repr

/-- Dynamic dispatch of `TransactionSampler.Extract`. -/
def TransactionSampler.Extract (SampleByRate : Nat → Rate → Bool) (x : TransactionSampler)
    (t : ProcessedTrace) : List Span :=
  match x with
  | .current s => s.Extract SampleByRate t
  | .legacy s => s.Extract SampleByRate t
  | .disabled s => s.Extract t

/-- The function `NewTransactionSampler`. -/
def NewTransactionSampler (conf : AgentConfig) : TransactionSampler :=
  if conf.AnalyzedSpansByService.len > 0 then
    .current (newTransactionSampler conf.AnalyzedSpansByService conf.MaxEventsPerTrace)
  else if conf.AnalyzedRateByServiceLegacy.len > 0 then
    .legacy (newLegacyTransactionSampler conf.AnalyzedRateByServiceLegacy conf.MaxEventsPerTrace)
  else
    .disabled {}

/-! ## Event samplers of `event/sampler`

A sampler may have effects (the max-EPS sampler calls its rate counter), so
a method of an interface is a function from the state before the call to its
result and the state after it. -/

/-- The type `SamplingDecision` of `event/sampler/sampler.go` with its three
constants (`iota` values 0, 1, 2). -/
inductive SamplingDecision where
  | NO_DECISION
  | SAMPLE
  | DONT_SAMPLE
  deriving DecidableEq, Repr

open SamplingDecision

/-- The interface `Sampler`: `Sample(event) SamplingDecision`. -/
structure Sampler (σ : Type) where
  Sample : APMEvent → σ → SamplingDecision × σ

/-- The struct `SampledTraceSampler` of `event/sampler/sampled_trace.go`. -/
structure SampledTraceSampler where
  deriving DecidableEq, Repr

/-- The constructor `NewSampledTraceSampler`. -/
def NewSampledTraceSampler : SampledTraceSampler := {}

/-- The method `SampledTraceSampler.Sample`; it has no effect. -/
def SampledTraceSampler.Sample (_sts : SampledTraceSampler) (event : APMEvent) :
    SamplingDecision :=
  if event.TraceSampled then SAMPLE else NO_DECISION

/-- A `SampledTraceSampler` used as a `Sampler`. -/
def SampledTraceSampler.asSampler {σ : Type} (sts : SampledTraceSampler) : Sampler σ :=
  { Sample := fun event st => (sts.Sample event, st) }

/-- The interface `RateCounter` of `event/sampler/max_eps.go`. -/
structure RateCounter (σ : Type) where
  Start : σ → σ
  Stop : σ → σ
  CountSampled : σ → σ
  GetSampledRate : σ → Rate × σ

/-- The struct `ReadOnlyRateCounter`. -/
structure ReadOnlyRateCounter (σ : Type) where
  rateCounter : RateCounter σ

/-- The constructor `NewReadOnlyRateCounter`. -/
def NewReadOnlyRateCounter {σ : Type} (rateCounter : RateCounter σ) : ReadOnlyRateCounter σ :=
  { rateCounter := rateCounter }

/-- The method `ReadOnlyRateCounter.Start`: a no-op. -/
def ReadOnlyRateCounter.Start {σ : Type} (_ro : ReadOnlyRateCounter σ) (st : σ) : σ := st

/-- The method `ReadOnlyRateCounter.Stop`: a no-op. -/
def ReadOnlyRateCounter.Stop {σ : Type} (_ro : ReadOnlyRateCounter σ) (st : σ) : σ := st

/-- The method `ReadOnlyRateCounter.CountSampled`: a no-op. -/
def ReadOnlyRateCounter.CountSampled {σ : Type} (_ro : ReadOnlyRateCounter σ) (st : σ) : σ := st

/-- The method `ReadOnlyRateCounter.GetSampledRate`. -/
def ReadOnlyRateCounter.GetSampledRate {σ : Type} (ro : ReadOnlyRateCounter σ) (st : σ) :
    Rate × σ :=
  ro.rateCounter.GetSampledRate st

/-- A `ReadOnlyRateCounter` used as a `RateCounter`. -/
def ReadOnlyRateCounter.asRateCounter {σ : Type} (ro : ReadOnlyRateCounter σ) : RateCounter σ :=
  { Start := ro.Start
    Stop := ro.Stop
    CountSampled := ro.CountSampled
    GetSampledRate := ro.GetSampledRate }

/-- The struct `MaxEPSSampler`. -/
structure MaxEPSSampler (σ : Type) where
  maxEPS : Rate
  rateCounter : RateCounter σ

/-- The constructor `NewMaxEPSSampler`. -/
def NewMaxEPSSampler {σ : Type} (maxEPS : Rate) (rateCounter : RateCounter σ) :
    MaxEPSSampler σ :=
  { maxEPS := maxEPS, rateCounter := rateCounter }

/-- The method `MaxEPSSampler.Sample`. -/
def MaxEPSSampler.Sample {σ : Type} (SampleByRate : Nat → Rate → Bool)
    (s : MaxEPSSampler σ) (event : APMEvent) (st : σ) : SamplingDecision × σ :=
  let (currentEPS, st1) := s.rateCounter.GetSampledRate st
  let maxEPSRate : Rate := if currentEPS > s.maxEPS then s.maxEPS / currentEPS else 1
  let sampled := SampleByRate event.Span.TraceID maxEPSRate
  if sampled then (SAMPLE, s.rateCounter.CountSampled st1) else (DONT_SAMPLE, st1)

/-- A `MaxEPSSampler` used as a `Sampler`. -/
def MaxEPSSampler.asSampler {σ : Type} (SampleByRate : Nat → Rate → Bool)
    (s : MaxEPSSampler σ) : Sampler σ :=
  { Sample := s.Sample SampleByRate }

/-- The struct `SamplerChain` of `event/sampler/chain.go`. -/
structure SamplerChain (σ : Type) where
  samplers : List (Sampler σ)
  callback : SamplingDecision → σ → σ

/-- The constructor `NewSamplerChain`. -/
def NewSamplerChain {σ : Type} (samplers : List (Sampler σ))
    (callback : SamplingDecision → σ → σ) : SamplerChain σ :=
  { samplers := samplers, callback := callback }

/-- The `for ... range sc.samplers` loop of `SamplerChain.Sample`, followed by
its final `return NO_DECISION`. -/
def SamplerChain.sampleLoop {σ : Type} (event : APMEvent) :
    List (Sampler σ) → σ → SamplingDecision × σ
  | [], st => (NO_DECISION, st)
  | sampler :: rest, st =>
    let (decision, st1) := sampler.Sample event st
    if decision ≠ NO_DECISION then (decision, st1)
    else SamplerChain.sampleLoop event rest st1

/-- The method `SamplerChain.Sample`. -/
def SamplerChain.Sample {σ : Type} (sc : SamplerChain σ) (event : APMEvent) (st : σ) :
    SamplingDecision × σ :=
  SamplerChain.sampleLoop event sc.samplers st

/-- A `SamplerChain` used as a `Sampler`. -/
def SamplerChain.asSampler {σ : Type} (sc : SamplerChain σ) : Sampler σ :=
  { Sample := sc.Sample }

/-- The struct `BatchSampler` of `event/sampler/sampler.go`. -/
structure BatchSampler (σ : Type) where
  sampler : Sampler σ

/-- The constructor `NewBatchSampler`. -/
def NewBatchSampler {σ : Type} (sampler : Sampler σ) : BatchSampler σ :=
  { sampler := sampler }

/-- The `for ... range events` loop of `BatchSampler.Sample`, with the slice
`result` built so far. -/
def BatchSampler.sampleLoop {σ : Type} (bs : BatchSampler σ) :
    List APMEvent → List APMEvent → σ → List APMEvent × σ
  | [], result, st => (result, st)
  | event :: rest, result, st =>
    let (decision, st1) := bs.sampler.Sample event st
    if decision = SAMPLE then BatchSampler.sampleLoop bs rest (result ++ [event]) st1
    else BatchSampler.sampleLoop bs rest result st1

/-- The method `BatchSampler.Sample`. -/
def BatchSampler.Sample {σ : Type} (bs : BatchSampler σ) (events : List APMEvent) (st : σ) :
    List APMEvent × σ :=
  BatchSampler.sampleLoop bs events [] st

/-- The chain built inside `FromConf` of `event/sampler/sampler.go` around the
rate counter `rateCounter`: the trace-sampled pass-through, then the max-EPS
sampler over a read-only view of the counter, and the decision callback that
counts a `SAMPLE`. -/
def eventsampler.chainFromConf {σ : Type} (SampleByRate : Nat → Rate → Bool)
    (rateCounter : RateCounter σ) (conf : AgentConfig) : SamplerChain σ :=
  NewSamplerChain
    [ NewSampledTraceSampler.asSampler,
      (NewMaxEPSSampler conf.MaxEPS
        (NewReadOnlyRateCounter rateCounter).asRateCounter).asSampler SampleByRate ]
    (fun decision st => if decision = SAMPLE then rateCounter.CountSampled st else st)

/-- The function `FromConf` of `event/sampler/sampler.go`. The counter it
creates with `NewSamplerBackendRateCounter` (whose backend is not among the
sources) is the parameter `rateCounter`; the result is the batch sampler and the
state after `rateCounter.Start()`. -/
def eventsampler.FromConf {σ : Type} (SampleByRate : Nat → Rate → Bool)
    (rateCounter : RateCounter σ) (conf : AgentConfig) (st : σ) : BatchSampler σ × σ :=
  let st1 := rateCounter.Start st
  (NewBatchSampler (eventsampler.chainFromConf SampleByRate rateCounter conf).asSampler, st1)

/-! ## Stats of `model/stats.go`

A `panic` is the result `none`. An `int64` sum is wrapped to 64 bits. The file
adds a metric value of the span to an `int64` count, which Go accepts for an
`int64` value only: the embedding reads the metric as the integer `goInt val`,
the value itself when it is a whole number of the range of `int64`. A nil `Metrics` map and an empty one
are the same empty list; the code panics on both when it looks for a custom
metric. -/

/-- The store `m[k] = v` of a Go map: the binding of `k` is replaced, or added
when the key is new. -/
def GoMap.set {V : Type} : GoMap V → String → V → GoMap V
  | [], k, v => [(k, v)]
  | (k1, v1) :: rest, k, v =>
    if k1 = k then (k, v) :: rest else (k1, v1) :: GoMap.set rest k v

/-- The value of an `int64` computation whose exact result is `x`: `x` wrapped
into the range of 64-bit two's complement. -/
def wrapInt64 (x : Int) : Int :=
  (x + 2 ^ 63) % 2 ^ 64 - 2 ^ 63

/-- The constant `HITS`. -/
def HITS : String := "hits"

/-- The constant `ERRORS`. -/
def ERRORS : String := "errors"

/-- The constant `DURATION`. -/
def DURATION : String := "duration"

/-- The array `DefaultCounts`. -/
def DefaultCounts : List String := [HITS, ERRORS, DURATION]

/-- The array `DefaultDistributions`. -/
def DefaultDistributions : List String := [DURATION]

/-- Modelled from the spec: the type `model.Tag` (its declaration is not among
the sources): a (name, value) pair of strings. -/
structure Tag where
  Name : String := ""
  Value : String := ""
  deriving DecidableEq, Repr

/-- Modelled from the spec: the type `model.TagSet` (its declaration is not among
the sources): a sequence of tags. -/
abbrev TagSet := List Tag

/-- The struct `Count`. -/
structure Count where
  Key : String := ""
  Name : String := ""
  TagSet : TagSet := []
  Value : Int := 0
  deriving DecidableEq, Repr

/-- The formatting `fmt.Sprintf("%s:%s", t.Name, t.Value)` of a tag. -/
def tagString (t : Tag) : String :=
  t.Name ++ ":" ++ t.Value

/-- The lexicographic order on sequences of character codes. -/
def lexLE : List Nat → List Nat → Bool
  | [], _ => true
  | _ :: _, [] => false
  | a :: as, b :: bs =>
    if a < b then true else if b < a then false else lexLE as bs

/-- Go `a <= b` on strings: the lexicographic order of their characters. -/
def stringLE (a b : String) : Bool :=
  lexLE (a.data.map Char.toNat) (b.data.map Char.toNat)

/-- The library call `sort.Strings`: the strings in increasing order. -/
def sortStrings (l : List String) : List String :=
  l.insertionSort (fun a b => stringLE a b = true)

/-- The library call `strings.Join`. -/
def stringsJoin (l : List String) (sep : String) : String :=
  sep.intercalate l

/-- The function `NewCount`. -/
def NewCount (m : String) (tgs : TagSet) : Count :=
  let tagStrings := sortStrings (tgs.map tagString)
  { Name := m
    TagSet := tgs
    Value := 0
    Key := "Count(name=" ++ m ++ ",tags=" ++ stringsJoin tagStrings "," ++ ")" }

/-- The method `Count.Add`; `none` is one of its two panics. -/
def Count.Add (c : Count) (s : Span) : Option Count :=
  if c.Name = HITS ∨ c.Name = ERRORS then
    some { Key := c.Key, Name := c.Name, TagSet := c.TagSet, Value := wrapInt64 (c.Value + 1) }
  else if c.Name = DURATION then
    some { Key := c.Key, Name := c.Name, TagSet := c.TagSet
           Value := wrapInt64 (c.Value + s.Duration) }
  else
    match s.Metrics.get c.Name with
    | some val =>
      some { Key := c.Key, Name := c.Name, TagSet := c.TagSet
             Value := wrapInt64 (c.Value + goInt val) }
    | none => none

/-- Modelled from the spec: the interface `Summary` with `NewSummary` and `Insert`
(the quantile summary is not among the sources): a summary supports
`insert(value, tiebreak_id)`; it is kept as its epsilon and the insertions made,
in order. -/
structure Summary where
  epsilon : Rate := 0
  entries : List (Int × Nat) := []
  deriving DecidableEq, Repr

/-- Modelled from the spec: `NewSummary(epsilon)`, the empty summary. -/
def NewSummary (epsilon : Rate) : Summary :=
  { epsilon := epsilon, entries := [] }

/-- Modelled from the spec: `Summary.Insert(value, tiebreak_id)`. -/
def Summary.Insert (sm : Summary) (v : Int) (t : Nat) : Summary :=
  { sm with entries := sm.entries ++ [(v, t)] }

/-- The struct `Distribution`. Its `Summary` is a reference: `Encode` asserts it
to be a `*GKSummary`, so an insertion is seen by every copy of the struct. -/
structure Distribution where
  Key : String := ""
  Name : String := ""
  TagSet : TagSet := []
  Summary : Summary := {}
  deriving DecidableEq, Repr

/-- The function `NewDistribution`. -/
def NewDistribution (m : String) (tgs : TagSet) (epsilon : Rate) : Distribution :=
  { Name := m, TagSet := tgs, Summary := NewSummary epsilon }

/-- The method `Distribution.Add`: the distribution with the summary after the
insertion, `none` for its panic. -/
def Distribution.Add (d : Distribution) (s : Span) : Option Distribution :=
  if d.Name = DURATION then
    some { d with Summary := d.Summary.Insert s.Duration s.SpanID }
  else
    match s.Metrics.get d.Name with
    | some val => some { d with Summary := d.Summary.Insert (goInt val) s.SpanID }
    | none => none

/-- The struct `StatsBucket`. -/
structure StatsBucket where
  Start : Int := 0
  Duration : Int := 0
  Epsilon : Rate := 0
  Counts : GoMap Count := []
  Distributions : GoMap Distribution := []
  deriving DecidableEq, Repr

/-- The function `NewStatsBucket`; the time `Now()` returns is the parameter
`now`. The `Duration` is left at its zero value. -/
def NewStatsBucket (now : Int) (epsilon : Rate) : StatsBucket :=
  { Start := now, Epsilon := epsilon, Counts := [], Distributions := [] }

/-- What `StatsBucket.MarshalJSON` hands to `json.Marshal`: the start, duration
and epsilon of the bucket and its counts and distributions flattened. -/
structure FlatBucket where
  start : Int
  duration : Int
  epsilon : Rate
  counts : List Count
  distributions : List Distribution
  deriving DecidableEq, Repr

/-- The method `StatsBucket.MarshalJSON`: `none` for its panic, otherwise the
value it returns from `json.Marshal`, kept as the argument of that call. The
maps are flattened in the order of the association lists. -/
def StatsBucket.MarshalJSON (sb : StatsBucket) : Option FlatBucket :=
  if sb.Duration = 0 then none
  else
    let flatCounts := sb.Counts.map (fun kv => kv.2)
    let flatDistros := sb.Distributions.map (fun kv => kv.2)
    some { start := sb.Start, duration := sb.Duration, epsilon := sb.Epsilon
           counts := flatCounts, distributions := flatDistros }

/-- Modelled from the spec: the method `TagSet.TagKey` (not among the sources):
the key of a count or distribution under metric `m` with tag set `T` is
`tag_key(T) + "|" + m`, where `tag_key(T)` is the comma-joined `name:value` form
after alphabetic sort. -/
def TagSet.TagKey (tgs : TagSet) (m : String) : String :=
  stringsJoin (sortStrings (tgs.map tagString)) "," ++ "|" ++ m

/-- The method `StatsBucket.addToCount`. The count that `Add` returns is not
stored: the statement `sb.Counts[ckey].Add(s)` drops it. -/
def StatsBucket.addToCount (sb : StatsBucket) (m : String) (s : Span) (tgs : TagSet) :
    Option StatsBucket :=
  let ckey := TagSet.TagKey tgs m
  let counts :=
    match sb.Counts.get ckey with
    | some _ => sb.Counts
    | none => sb.Counts.set ckey (NewCount m tgs)
  match ((counts.get ckey).getD {}).Add s with
  | some _ => some { sb with Counts := counts }
  | none => none

/-- The method `StatsBucket.addToDistribution`. The insertion `Add` makes goes to
the summary the map entry refers to. -/
def StatsBucket.addToDistribution (sb : StatsBucket) (m : String) (s : Span) (tgs : TagSet) :
    Option StatsBucket :=
  let ckey := TagSet.TagKey tgs m
  let distros :=
    match sb.Distributions.get ckey with
    | some _ => sb.Distributions
    | none => sb.Distributions.set ckey (NewDistribution m tgs sb.Epsilon)
  match ((distros.get ckey).getD {}).Add s with
  | some d => some { sb with Distributions := distros.set ckey d }
  | none => none

/-- The loop `for _, m := range DefaultCounts` of `addToTagSet`. -/
def StatsBucket.addToCounts (s : Span) (tgs : TagSet) :
    List String → StatsBucket → Option StatsBucket
  | [], sb => some sb
  | m :: rest, sb =>
    match sb.addToCount m s tgs with
    | some sb1 => StatsBucket.addToCounts s tgs rest sb1
    | none => none

/-- The loop `for _, m := range DefaultDistributions` of `addToTagSet`. -/
def StatsBucket.addToDistributions (s : Span) (tgs : TagSet) :
    List String → StatsBucket → Option StatsBucket
  | [], sb => some sb
  | m :: rest, sb =>
    match sb.addToDistribution m s tgs with
    | some sb1 => StatsBucket.addToDistributions s tgs rest sb1
    | none => none

/-- The method `StatsBucket.addToTagSet`. -/
def StatsBucket.addToTagSet (sb : StatsBucket) (s : Span) (tgs : TagSet) : Option StatsBucket :=
  match StatsBucket.addToCounts s tgs DefaultCounts sb with
  | some sb1 => StatsBucket.addToDistributions s tgs DefaultDistributions sb1
  | none => none

/-- The method `StatsBucket.HandleSpan`. -/
def StatsBucket.HandleSpan (sb : StatsBucket) (s : Span) : Option StatsBucket :=
  let sTag : Tag := { Name := "service", Value := s.Service }
  let byS : TagSet := [sTag]
  match sb.addToTagSet s byS with
  | some sb1 =>
    let rTag : Tag := { Name := "resource", Value := s.Resource }
    let bySR : TagSet := [sTag, rTag]
    sb1.addToTagSet s bySR
  | none => none

/-! ## Vocabulary of the specification

The definitions below are not translations of code: they say in the words of
the specification what the code is compared with. -/

/-- The rate the current policy holds for the `(service, operation)` pair of a
span, if any. -/
def policyRate (policy : GoMap (GoMap Rate)) (ws : WeightedSpan) : Option Rate :=
  (policy.get ws.Span.Service).bind (fun operations => operations.get ws.Span.Name)

/-- The root span of the trace carries a sampling priority that is at least 2
(manual keep). -/
def HighPriority (t : ProcessedTrace) : Prop :=
  ∃ root v, t.Root = some root ∧ root.Metrics.get SamplingPriorityKey = some v ∧ 2 ≤ goInt v

/-- Eligibility under the current policy: the pair of the span maps to a rate
`r`, and the trace is a manual keep or the rate sampler keeps its trace id at `r`. -/
def Eligible (SampleByRate : Nat → Rate → Bool) (policy : GoMap (GoMap Rate))
    (t : ProcessedTrace) (ws : WeightedSpan) : Prop :=
  ∃ r, policyRate policy ws = some r ∧
    (HighPriority t ∨ SampleByRate ws.Span.TraceID r = true)

/-- Eligibility under the legacy policy: the span is top-level, its service
maps to a rate `r` and the rate sampler keeps its trace id at `r`. -/
def LegacyEligible (SampleByRate : Nat → Rate → Bool) (policy : GoMap Rate)
    (ws : WeightedSpan) : Prop :=
  ws.TopLevel = true ∧
    ∃ r, policy.get ws.Span.Service = some r ∧ SampleByRate ws.Span.TraceID r = true

/-- The first spans of a list that a per-trace cap `n` lets through: all of
them when `n` is negative, the first `n` otherwise. -/
def capped {α : Type} (n : Int) (l : List α) : List α :=
  if n < 0 then l else l.take n.toNat

/-- Every sampler of the list consulted in order on the event, whatever it
answers: the answers, and the state after the last one. -/
def consultAll {σ : Type} (event : APMEvent) :
    List (Sampler σ) → σ → List SamplingDecision × σ
  | [], st => ([], st)
  | sampler :: rest, st =>
    let r := sampler.Sample event st
    let rs := consultAll event rest r.2
    (r.1 :: rs.1, rs.2)

/-- The pair of the span is present in the current policy, whatever its rate. -/
def inPolicy (policy : GoMap (GoMap Rate)) (ws : WeightedSpan) : Bool :=
  (policyRate policy ws).isSome

/-- The pair of the span maps to a rate in the current policy and the rate
sampler keeps the span's trace id at that rate. -/
def keptByRate (SampleByRate : Nat → Rate → Bool) (policy : GoMap (GoMap Rate))
    (ws : WeightedSpan) : Bool :=
  match policyRate policy ws with
  | some r => SampleByRate ws.Span.TraceID r
  | none => false

/-- A rate sampler that keeps nothing, whatever the rate. -/
def keepNothing : Nat → Rate → Bool := fun _ _ => false

/-- A rate sampler that keeps every identifier at rate 1 or more and nothing
below. -/
def keepAtFullRate : Nat → Rate → Bool := fun _ r => decide (1 ≤ r)

/-- The current policy of `TestTransactionSampler`: `myService/myOperation` at
rate 1 and `mySampledService/myOperation` at rate 0. -/
def testPolicy : GoMap (GoMap Rate) :=
  [("myService", [("myOperation", 1)]), ("mySampledService", [("myOperation", 0)])]

/-- The helper `createTrace` of `transaction_sampler_test.go`: a trace of one
weighted span that is also its root. -/
def createTrace (serviceName operationName : String) (topLevel hasPriority : Bool)
    (priority : Int) : ProcessedTrace :=
  let span : Span :=
    { Service := serviceName
      Name := operationName
      Metrics := if hasPriority then [(SamplingPriorityKey, (priority : Rate))] else [] }
  { WeightedTrace := [{ TopLevel := topLevel, Span := span }], Root := some span }

/-- A configuration with the test's current policy and a per-trace cap of 1. -/
def cappedConf : AgentConfig :=
  { AnalyzedSpansByService := testPolicy, MaxEventsPerTrace := 1 }

/-- A trace of two `myService/myOperation` spans, the root and its child, whose
root carries the sampling priority 2. -/
def twoSpanTrace : ProcessedTrace :=
  let root : Span :=
    { SpanID := 1, Service := "myService", Name := "myOperation",
      Metrics := [(SamplingPriorityKey, 2)] }
  let child : Span :=
    { SpanID := 2, ParentID := 1, Service := "myService", Name := "myOperation" }
  { WeightedTrace := [{ TopLevel := true, Span := root }, { TopLevel := false, Span := child }]
    Root := some root }

/-- The calls a `recordingRateCounter` has received so far. -/
structure CallLog where
  countSampled : Nat := 0
  getSampledRate : Nat := 0
  deriving DecidableEq, Repr

/-- A test double for the interface `RateCounter`: it records every
`CountSampled` and `GetSampledRate` call in a `CallLog` and reports the number of
`CountSampled` calls as its rate. -/
def recordingRateCounter : RateCounter CallLog :=
  { Start := fun log => log
    Stop := fun log => log
    CountSampled := fun log => { log with countSampled := log.countSampled + 1 }
    GetSampledRate := fun log =>
      ((log.countSampled : Rate), { log with getSampledRate := log.getSampledRate + 1 }) }

/-- A configuration with an events-per-second target of 10. -/
def epsConf : AgentConfig := { MaxEPS := 10 }

/-- An event of a sampled trace. -/
def sampledEvent : APMEvent := { Span := { TraceID := 42 }, TraceSampled := true }

/-- An event of a trace that was not sampled. -/
def unsampledEvent : APMEvent := { Span := { TraceID := 42 }, TraceSampled := false }

/-- The underlying sampler consulted on every event of the batch in order: its
answers, and the state after the last one. -/
def consultEach {σ : Type} (sampler : Sampler σ) :
    List APMEvent → σ → List SamplingDecision × σ
  | [], st => ([], st)
  | event :: rest, st =>
    let r := sampler.Sample event st
    let rs := consultEach sampler rest r.2
    (r.1 :: rs.1, rs.2)

/-- A rate counter whose state is the number of events counted: `CountSampled`
adds one, `GetSampledRate` reads the number and leaves it as it is. -/
def plainRateCounter : RateCounter Nat :=
  { Start := fun n => n
    Stop := fun n => n
    CountSampled := fun n => n + 1
    GetSampledRate := fun n => ((n : Rate), n) }

/-- The method `StatsBucket.HandleSpan` called `n` times with the same span; `none`
when a call panics. -/
def handleSpans (s : Span) : Nat → StatsBucket → Option StatsBucket
  | 0, sb => some sb
  | n + 1, sb =>
    match sb.HandleSpan s with
    | some sb1 => handleSpans s n sb1
    | none => none

/-- A span of service `web` and resource `GET /` that lasted 100 nanoseconds
without error. -/
def webSpan : Span :=
  { TraceID := 1, SpanID := 7, Service := "web", Name := "http.request", Resource := "GET /",
    Duration := 100, Error := 0 }

/-- The tag set `{service}` of `webSpan`. -/
def webByService : TagSet := [{ Name := "service", Value := "web" }]

/-- The tag set `{service, resource}` of `webSpan`. -/
def webByServiceResource : TagSet :=
  [{ Name := "service", Value := "web" }, { Name := "resource", Value := "GET /" }]

/-- The value of the count stored in the bucket under the metric `m` and the tag
set `tgs`, if there is one. -/
def countValue (sb : StatsBucket) (m : String) (tgs : TagSet) : Option Int :=
  (sb.Counts.get (TagSet.TagKey tgs m)).map (fun c => c.Value)

/-- Modelled from the spec: the function `sampler.SampleByRate` (not among the
sources). The trace id is hashed by multiplication with a fixed 64-bit constant
and the 64-bit product is compared to `rate · 2^64`; rate 0 keeps nothing, rate 1
or more keeps everything, a rate outside [0, 1] is clamped. The specification
does not give the constant: it is the parameter `samplerHasher`. -/
def SampleByRate (samplerHasher : Nat) (traceID : Nat) (rate : Rate) : Bool :=
  decide ((((traceID * samplerHasher) % 2 ^ 64 : Nat) : Rate) < max 0 (min 1 rate) * 2 ^ 64)

/-- A 64-bit multiplicative constant for the examples. -/
def exampleHasher : Nat := 1111111111111111111

/-- The trace whose spans, in the weighted trace, are rewritten by `f` and whose
root is `root`; everything else is as in `t`. -/
def rewriteSpans (f : Span → Span) (root : Option Span) (t : ProcessedTrace) : ProcessedTrace :=
  { t with
    WeightedTrace := t.WeightedTrace.map (fun ws => { ws with Span := f ws.Span })
    Root := root }

/-- The span with its sampling-priority metric set to `v` when its id is `spanID`,
the span itself otherwise. -/
def setPriority (spanID : Nat) (v : Rate) (s : Span) : Span :=
  if s.SpanID = spanID then { s with Metrics := s.Metrics.set SamplingPriorityKey v } else s

/-- The legacy policy of the examples: service `web` at rate 1. -/
def legacyPolicy : GoMap Rate := [("web", 1)]

/-- The first span of `twoWebSpansTrace`, its root. -/
def webRoot : Span := { TraceID := 1, SpanID := 1, Service := "web", Name := "http.request" }

/-- The second span of `twoWebSpansTrace`. -/
def webSecond : Span := { TraceID := 1, SpanID := 2, Service := "web", Name := "http.request" }

/-- A trace of two top-level spans of service `web`, without sampling priority. -/
def twoWebSpansTrace : ProcessedTrace :=
  { WeightedTrace := [{ TopLevel := true, Span := webRoot }, { TopLevel := true, Span := webSecond }]
    Root := some webRoot }

/-- Manual keep is decidable: it reads the root's metrics. -/
instance HighPriority.instDecidable (t : ProcessedTrace) : Decidable (HighPriority t) :=
  match h : t.Root with
  | none => isFalse (by
      rintro ⟨root, v, h1, -, -⟩
      rw [h] at h1
      cases h1)
  | some root =>
    match h2 : root.Metrics.get SamplingPriorityKey with
    | none => isFalse (by
        rintro ⟨root1, v, h1, h3, -⟩
        rw [h] at h1
        cases h1
        rw [h2] at h3
        cases h3)
    | some v =>
      if h4 : 2 ≤ goInt v then isTrue ⟨root, v, h, h2, h4⟩
      else isFalse (by
        rintro ⟨root1, v1, h1, h3, h5⟩
        rw [h] at h1
        cases h1
        rw [h2] at h3
        cases h3
        exact h4 h5)

/-- Eligibility under the current policy is decidable. -/
instance Eligible.instDecidable (SampleByRate : Nat → Rate → Bool)
    (policy : GoMap (GoMap Rate)) (t : ProcessedTrace) (ws : WeightedSpan) :
    Decidable (Eligible SampleByRate policy t ws) :=
  match h : policyRate policy ws with
  | none => isFalse (by
      rintro ⟨r, h1, -⟩
      rw [h] at h1
      cases h1)
  | some r =>
    if h2 : HighPriority t ∨ SampleByRate ws.Span.TraceID r = true then isTrue ⟨r, h, h2⟩
    else isFalse (by
      rintro ⟨r1, h1, h3⟩
      rw [h] at h1
      cases h1
      exact h2 h3)

/-- Eligibility under the legacy policy is decidable. -/
instance LegacyEligible.instDecidable (SampleByRate : Nat → Rate → Bool)
    (policy : GoMap Rate) (ws : WeightedSpan) :
    Decidable (LegacyEligible SampleByRate policy ws) :=
  match h : policy.get ws.Span.Service with
  | none => isFalse (by
      rintro ⟨-, r, h1, -⟩
      rw [h] at h1
      cases h1)
  | some r =>
    if h2 : ws.TopLevel = true ∧ SampleByRate ws.Span.TraceID r = true then
      isTrue ⟨h2.1, r, h, h2.2⟩
    else isFalse (by
      rintro ⟨h3, r1, h1, h4⟩
      rw [h] at h1
      cases h1
      exact h2 ⟨h3, h4⟩)

/-! ## Properties -/

/-- The conversion `int(p)` always yields a value of the 64-bit range. -/
theorem goInt_range (p : Rate) : -2 ^ 63 ≤ goInt p ∧ goInt p < 2 ^ 63 := by
  unfold goInt
  simp only []
  split
  · assumption
  · constructor <;> norm_num

/-- The conversion `int(p)` of a whole number of the 64-bit range is that
number. -/
theorem goInt_intCast (k : Int) (hlo : -2 ^ 63 ≤ k) (hhi : k < 2 ^ 63) :
    goInt (k : Rate) = k := by
  unfold goInt
  simp only [Rat.num_intCast, Rat.den_intCast, Nat.cast_one, Int.tdiv_one]
  rw [if_pos ⟨hlo, hhi⟩]

/-- The conversion `int(p)` of a whole number beyond the 64-bit range is the
smallest `int64`. -/
theorem goInt_intCast_overflow (k : Int) (h : k < -2 ^ 63 ∨ 2 ^ 63 ≤ k) :
    goInt (k : Rate) = -2 ^ 63 := by
  unfold goInt
  simp only [Rat.num_intCast, Rat.den_intCast, Nat.cast_one, Int.tdiv_one]
  rw [if_neg (by omega)]

/-- The flag and the priority returned by `GetSamplingPriority` say manual keep
exactly when the root carries a priority of at least 2. -/
theorem getSamplingPriority_high_iff (t : ProcessedTrace) :
    (t.GetSamplingPriority.2 && decide (t.GetSamplingPriority.1 ≥ 2)) = true ↔
      HighPriority t := by
  unfold ProcessedTrace.GetSamplingPriority HighPriority
  cases hroot : t.Root with
  | none => simp
  | some root =>
    cases hm : root.Metrics.get SamplingPriorityKey with
    | none => simp [hm]
    | some v => simp [hm]

/-- Manual keep, said with the pair `GetSamplingPriority` returns: the flag is
set and the 64-bit priority is at least 2. -/
theorem highPriority_iff_returned (t : ProcessedTrace) :
    HighPriority t ↔ t.GetSamplingPriority.2 = true ∧ 2 ≤ t.GetSamplingPriority.1 := by
  rw [← getSamplingPriority_high_iff]
  simp

/-- The method `AnalyzedExtractor.shouldAnalyze`, called with what
`GetSamplingPriority` returned, accepts exactly the eligible spans. -/
theorem analyzed_shouldAnalyze_iff (SampleByRate : Nat → Rate → Bool)
    (policy : GoMap (GoMap Rate)) (t : ProcessedTrace) (ws : WeightedSpan) :
    (NewAnalyzed policy).shouldAnalyze SampleByRate ws t.GetSamplingPriority.2
        t.GetSamplingPriority.1 = true ↔ Eligible SampleByRate policy t ws := by
  have hp := getSamplingPriority_high_iff t
  unfold AnalyzedExtractor.shouldAnalyze Eligible policyRate NewAnalyzed
  cases h1 : GoMap.get policy ws.Span.Service with
  | none => simp
  | some operations =>
    cases h2 : GoMap.get operations ws.Span.Name with
    | none => simp [h2]
    | some r =>
      rw [← hp]
      simp [h2]

/-- The method `transactionSampler.shouldAnalyze` is the same test. -/
theorem transaction_shouldAnalyze_iff (SampleByRate : Nat → Rate → Bool)
    (policy : GoMap (GoMap Rate)) (n : Int) (t : ProcessedTrace) (ws : WeightedSpan) :
    (newTransactionSampler policy n).shouldAnalyze SampleByRate ws t.GetSamplingPriority.2
        t.GetSamplingPriority.1 = true ↔ Eligible SampleByRate policy t ws :=
  analyzed_shouldAnalyze_iff SampleByRate policy t ws

/-- The loop of `AnalyzedExtractor.Extract` appends to `events` one event per
accepted span, in order. -/
theorem analyzed_extractLoop_eq (SampleByRate : Nat → Rate → Bool) (s : AnalyzedExtractor)
    (b hasPriority : Bool) (priority : Int) (l : List WeightedSpan) (events : List APMEvent) :
    AnalyzedExtractor.extractLoop SampleByRate s b hasPriority priority l events =
      events ++ (l.filter (fun ws => s.shouldAnalyze SampleByRate ws hasPriority priority)).map
        (fun ws => { Span := ws.Span, TraceSampled := b }) := by
  induction l generalizing events with
  | nil => simp [AnalyzedExtractor.extractLoop]
  | cons ws rest ih =>
    unfold AnalyzedExtractor.extractLoop
    by_cases h : s.shouldAnalyze SampleByRate ws hasPriority priority = true
    · simp [h, ih]
    · simp [h, ih]

/-- The method `AnalyzedExtractor.Extract` returns one event per eligible span,
in trace order. -/
theorem analyzed_extract_eq (SampleByRate : Nat → Rate → Bool)
    (policy : GoMap (GoMap Rate)) (t : ProcessedTrace) (b : Bool) :
    (NewAnalyzed policy).Extract SampleByRate t b =
      (t.WeightedTrace.filter (fun ws => decide (Eligible SampleByRate policy t ws))).map
        (fun ws => { Span := ws.Span, TraceSampled := b }) := by
  unfold AnalyzedExtractor.Extract
  rw [show t.GetSamplingPriority = (t.GetSamplingPriority.1, t.GetSamplingPriority.2) from rfl]
  simp only [analyzed_extractLoop_eq, List.nil_append]
  congr 1
  apply List.filter_congr
  intro ws _
  rw [Bool.eq_iff_iff, analyzed_shouldAnalyze_iff]
  simp

/-- Claim C1: for every policy map, processed trace `t` and flag `b`,
`AnalyzedExtractor.Extract(t, b)` returns, in the order of `t.WeightedTrace`, one
event per eligible span and nothing else; each event references its span and
carries `TraceSampled = b`. A span is eligible iff its (Service, Name) pair maps to
a rate `r` and (the root carries a sampling priority >= 2 or
`SampleByRate(TraceID, r)` holds); the sampling priority is the 64-bit `int(v)` of
the root's metric `v`, as `GetSamplingPriority` returns it. -/
theorem analyzedExtractor_extract_eligible (SampleByRate : Nat → Rate → Bool)
    (policy : GoMap (GoMap Rate)) (t : ProcessedTrace) (b : Bool) :
    (NewAnalyzed policy).Extract SampleByRate t b =
      (t.WeightedTrace.filter (fun ws => decide (Eligible SampleByRate policy t ws))).map
        (fun ws => { Span := ws.Span, TraceSampled := b }) ∧
    (∀ ws, Eligible SampleByRate policy t ws ↔
      ∃ r, (∃ operations, policy.get ws.Span.Service = some operations ∧
              operations.get ws.Span.Name = some r) ∧
        ((∃ root v, t.Root = some root ∧ root.Metrics.get SamplingPriorityKey = some v ∧
            2 ≤ goInt v) ∨ SampleByRate ws.Span.TraceID r = true)) ∧
    ((∃ root v, t.Root = some root ∧ root.Metrics.get SamplingPriorityKey = some v ∧
        2 ≤ goInt v) ↔ t.GetSamplingPriority.2 = true ∧ 2 ≤ t.GetSamplingPriority.1) := by
  refine ⟨analyzed_extract_eq SampleByRate policy t b, ?_, highPriority_iff_returned t⟩
  intro ws
  unfold Eligible policyRate HighPriority
  cases h : GoMap.get policy ws.Span.Service with
  | none => simp
  | some operations => simp

/-- Claim C1 on a trace whose span has a policy entry of rate 0, with a rate
sampler that keeps nothing: a root priority of 2 makes the span eligible and
yields its event; a root metric of 10^19, which `int(v)` turns into the smallest
`int64`, does not, and neither does a priority of 1. -/
theorem analyzedExtractor_extract_eligible_witness :
    (NewAnalyzed testPolicy).Extract keepNothing
        (createTrace "mySampledService" "myOperation" true true 2) true =
      [{ Span := { Service := "mySampledService", Name := "myOperation",
                   Metrics := [(SamplingPriorityKey, 2)] },
         TraceSampled := true }] ∧
    (NewAnalyzed testPolicy).Extract keepNothing
        (createTrace "mySampledService" "myOperation" true true (10 ^ 19)) true = [] ∧
    (NewAnalyzed testPolicy).Extract keepNothing
        (createTrace "mySampledService" "myOperation" true true 1) true = [] := by
  refine ⟨?_, ?_, ?_⟩
  · rw [(analyzedExtractor_extract_eligible keepNothing testPolicy _ true).1]
    decide
  · rw [(analyzedExtractor_extract_eligible keepNothing testPolicy _ true).1]
    decide
  · rw [(analyzedExtractor_extract_eligible keepNothing testPolicy _ true).1]
    decide

/-- Without a cap (negative `maxEventsPerTrace`) the loop of
`transactionSampler.Extract` appends every accepted span. -/
theorem transaction_extractLoop_neg (SampleByRate : Nat → Rate → Bool) (s : transactionSampler)
    (hasPriority : Bool) (priority : Int) (hn : s.maxEventsPerTrace < 0)
    (l : List WeightedSpan) (acc : List Span) :
    transactionSampler.extractLoop SampleByRate s hasPriority priority l acc =
      acc ++ (l.filter (fun ws => s.shouldAnalyze SampleByRate ws hasPriority priority)).map
        (fun ws => ws.Span) := by
  induction l generalizing acc with
  | nil => simp [transactionSampler.extractLoop]
  | cons ws rest ih =>
    unfold transactionSampler.extractLoop
    have hcap : ¬ (s.maxEventsPerTrace ≥ 0 ∧ (acc.length : Int) ≥ s.maxEventsPerTrace) := by
      intro h
      omega
    by_cases h : s.shouldAnalyze SampleByRate ws hasPriority priority = true
    · simp [h, hcap, ih]
    · simp [h, ih]

/-- With a cap `m` not yet exceeded by the slice built so far, the loop of
`transactionSampler.Extract` returns the first `m` spans of that slice followed
by the accepted spans. -/
theorem transaction_extractLoop_cap (SampleByRate : Nat → Rate → Bool) (s : transactionSampler)
    (hasPriority : Bool) (priority : Int) (m : Nat) (hn : s.maxEventsPerTrace = (m : Int))
    (l : List WeightedSpan) (acc : List Span) (hacc : acc.length ≤ m) :
    transactionSampler.extractLoop SampleByRate s hasPriority priority l acc =
      (acc ++ (l.filter (fun ws => s.shouldAnalyze SampleByRate ws hasPriority priority)).map
        (fun ws => ws.Span)).take m := by
  induction l generalizing acc with
  | nil =>
    simp [transactionSampler.extractLoop, List.take_of_length_le hacc]
  | cons ws rest ih =>
    unfold transactionSampler.extractLoop
    by_cases h : s.shouldAnalyze SampleByRate ws hasPriority priority = true
    · by_cases hcap : s.maxEventsPerTrace ≥ 0 ∧ (acc.length : Int) ≥ s.maxEventsPerTrace
      · have hlen : acc.length = m := by omega
        simp only [h, hcap, and_self, if_true]
        rw [List.take_append_of_le_length (by omega), List.take_of_length_le (by omega)]
      · have hlt : acc.length < m := by omega
        simp only [h, hcap, if_true, if_false]
        rw [ih (acc ++ [ws.Span]) (by simp; omega)]
        simp [h]
    · simp only [h, if_false, Bool.false_eq_true]
      rw [ih acc hacc]
      simp [h]

/-- Claim C2: for a `transactionSampler` built with `maxEventsPerTrace = n` and a
trace with `k` eligible spans, `Extract` returns all `k` eligible spans when
`n < 0`, the first `min(n, k)` eligible spans in trace order when `n >= 0`, and
nothing when `n = 0`. -/
theorem transactionSampler_extract_cap (SampleByRate : Nat → Rate → Bool)
    (policy : GoMap (GoMap Rate)) (n : Int) (t : ProcessedTrace) :
    (n < 0 → (newTransactionSampler policy n).Extract SampleByRate t =
      (t.WeightedTrace.filter (fun ws => decide (Eligible SampleByRate policy t ws))).map
        (fun ws => ws.Span)) ∧
    (0 ≤ n → (newTransactionSampler policy n).Extract SampleByRate t =
      ((t.WeightedTrace.filter (fun ws => decide (Eligible SampleByRate policy t ws))).map
        (fun ws => ws.Span)).take
          (min n.toNat (t.WeightedTrace.filter
            (fun ws => decide (Eligible SampleByRate policy t ws))).length)) ∧
    (n = 0 → (newTransactionSampler policy n).Extract SampleByRate t = []) := by
  have hf : (t.WeightedTrace.filter (fun ws =>
        (newTransactionSampler policy n).shouldAnalyze SampleByRate ws
          t.GetSamplingPriority.2 t.GetSamplingPriority.1)) =
      t.WeightedTrace.filter (fun ws => decide (Eligible SampleByRate policy t ws)) := by
    apply List.filter_congr
    intro ws _
    rw [Bool.eq_iff_iff, transaction_shouldAnalyze_iff]
    simp
  have hcap : 0 ≤ n → (newTransactionSampler policy n).Extract SampleByRate t =
      ((t.WeightedTrace.filter (fun ws => decide (Eligible SampleByRate policy t ws))).map
        (fun ws => ws.Span)).take n.toNat := by
    intro hn
    unfold transactionSampler.Extract
    rw [show t.GetSamplingPriority = (t.GetSamplingPriority.1, t.GetSamplingPriority.2) from rfl]
    simp only []
    rw [transaction_extractLoop_cap SampleByRate _ _ _ n.toNat
      (by simp [newTransactionSampler, Int.toNat_of_nonneg hn]) _ [] (by simp), hf]
    simp
  refine ⟨?_, ?_, ?_⟩
  · intro hn
    unfold transactionSampler.Extract
    rw [show t.GetSamplingPriority = (t.GetSamplingPriority.1, t.GetSamplingPriority.2) from rfl]
    simp only []
    rw [transaction_extractLoop_neg SampleByRate _ _ _ (by simpa [newTransactionSampler] using hn),
      hf]
    simp
  · intro hn
    rw [hcap hn]
    rcases le_total n.toNat (t.WeightedTrace.filter
        (fun ws => decide (Eligible SampleByRate policy t ws))).length with h | h
    · rw [min_eq_left h]
    · rw [min_eq_right h, List.take_of_length_le (by simpa using h),
        List.take_of_length_le (by simp)]
  · intro hn
    rw [hcap (by omega), hn]
    simp

/-- The method `transactionSampler.Extract` returns the eligible spans, in trace
order, cut by the cap. -/
theorem transaction_extract_eq_capped (SampleByRate : Nat → Rate → Bool)
    (policy : GoMap (GoMap Rate)) (n : Int) (t : ProcessedTrace) :
    (newTransactionSampler policy n).Extract SampleByRate t =
      capped n ((t.WeightedTrace.filter
        (fun ws => decide (Eligible SampleByRate policy t ws))).map (fun ws => ws.Span)) := by
  have hf : (t.WeightedTrace.filter (fun ws =>
        (newTransactionSampler policy n).shouldAnalyze SampleByRate ws
          t.GetSamplingPriority.2 t.GetSamplingPriority.1)) =
      t.WeightedTrace.filter (fun ws => decide (Eligible SampleByRate policy t ws)) := by
    apply List.filter_congr
    intro ws _
    rw [Bool.eq_iff_iff, transaction_shouldAnalyze_iff]
    simp
  unfold transactionSampler.Extract capped
  rw [show t.GetSamplingPriority = (t.GetSamplingPriority.1, t.GetSamplingPriority.2) from rfl]
  simp only []
  by_cases hn : n < 0
  · rw [transaction_extractLoop_neg SampleByRate _ _ _ (by simpa [newTransactionSampler] using hn),
      hf]
    simp [hn]
  · rw [transaction_extractLoop_cap SampleByRate _ _ _ n.toNat
      (by simp [newTransactionSampler, Int.toNat_of_nonneg (not_lt.mp hn)]) _ [] (by simp), hf]
    simp [hn]

/-- The method `LegacyAnalyzedExtractor.shouldAnalyze` accepts exactly the spans
eligible under the legacy policy. -/
theorem legacy_shouldAnalyze_iff (SampleByRate : Nat → Rate → Bool) (policy : GoMap Rate)
    (ws : WeightedSpan) :
    (NewLegacyAnalyzed policy).shouldAnalyze SampleByRate ws = true ↔
      LegacyEligible SampleByRate policy ws := by
  unfold LegacyAnalyzedExtractor.shouldAnalyze LegacyEligible NewLegacyAnalyzed
  cases htop : ws.TopLevel with
  | false => simp
  | true =>
    cases h1 : GoMap.get policy ws.Span.Service with
    | none => simp
    | some r => simp

/-- The method `legacyTransactionSampler.shouldAnalyze` is the same test. -/
theorem legacyTransaction_shouldAnalyze_iff (SampleByRate : Nat → Rate → Bool)
    (policy : GoMap Rate) (n : Int) (ws : WeightedSpan) :
    (newLegacyTransactionSampler policy n).shouldAnalyze SampleByRate ws = true ↔
      LegacyEligible SampleByRate policy ws :=
  legacy_shouldAnalyze_iff SampleByRate policy ws

/-- The loop of `LegacyAnalyzedExtractor.Extract` appends to `events` one event
per accepted span, in order. -/
theorem legacy_extractLoop_eq (SampleByRate : Nat → Rate → Bool) (s : LegacyAnalyzedExtractor)
    (b : Bool) (l : List WeightedSpan) (events : List APMEvent) :
    LegacyAnalyzedExtractor.extractLoop SampleByRate s b l events =
      events ++ (l.filter (fun ws => s.shouldAnalyze SampleByRate ws)).map
        (fun ws => { Span := ws.Span, TraceSampled := b }) := by
  induction l generalizing events with
  | nil => simp [LegacyAnalyzedExtractor.extractLoop]
  | cons ws rest ih =>
    unfold LegacyAnalyzedExtractor.extractLoop
    by_cases h : s.shouldAnalyze SampleByRate ws = true
    · simp [h, ih]
    · simp [h, ih]

/-- The method `LegacyAnalyzedExtractor.Extract` returns one event per span
eligible under the legacy policy, in trace order. -/
theorem legacy_extract_eq (SampleByRate : Nat → Rate → Bool) (policy : GoMap Rate)
    (t : ProcessedTrace) (b : Bool) :
    (NewLegacyAnalyzed policy).Extract SampleByRate t b =
      (t.WeightedTrace.filter (fun ws => decide (LegacyEligible SampleByRate policy ws))).map
        (fun ws => { Span := ws.Span, TraceSampled := b }) := by
  unfold LegacyAnalyzedExtractor.Extract
  rw [legacy_extractLoop_eq, List.nil_append]
  congr 1
  apply List.filter_congr
  intro ws _
  rw [Bool.eq_iff_iff, legacy_shouldAnalyze_iff]
  simp

/-- Without a cap the loop of `legacyTransactionSampler.Extract` appends every
accepted span. -/
theorem legacyTransaction_extractLoop_neg (SampleByRate : Nat → Rate → Bool)
    (s : legacyTransactionSampler) (hn : s.maxEventsPerTrace < 0)
    (l : List WeightedSpan) (acc : List Span) :
    legacyTransactionSampler.extractLoop SampleByRate s l acc =
      acc ++ (l.filter (fun ws => s.shouldAnalyze SampleByRate ws)).map (fun ws => ws.Span) := by
  induction l generalizing acc with
  | nil => simp [legacyTransactionSampler.extractLoop]
  | cons ws rest ih =>
    unfold legacyTransactionSampler.extractLoop
    have hcap : ¬ (s.maxEventsPerTrace ≥ 0 ∧ (acc.length : Int) ≥ s.maxEventsPerTrace) := by
      intro h
      omega
    by_cases h : s.shouldAnalyze SampleByRate ws = true
    · simp [h, hcap, ih]
    · simp [h, hcap, ih]

/-- With a cap `m` not yet exceeded by the slice built so far, the loop of
`legacyTransactionSampler.Extract` returns the first `m` spans of that slice
followed by the accepted spans. -/
theorem legacyTransaction_extractLoop_cap (SampleByRate : Nat → Rate → Bool)
    (s : legacyTransactionSampler) (m : Nat) (hn : s.maxEventsPerTrace = (m : Int))
    (l : List WeightedSpan) (acc : List Span) (hacc : acc.length ≤ m) :
    legacyTransactionSampler.extractLoop SampleByRate s l acc =
      (acc ++ (l.filter (fun ws => s.shouldAnalyze SampleByRate ws)).map
        (fun ws => ws.Span)).take m := by
  induction l generalizing acc with
  | nil =>
    simp [legacyTransactionSampler.extractLoop, List.take_of_length_le hacc]
  | cons ws rest ih =>
    unfold legacyTransactionSampler.extractLoop
    by_cases hcap : s.maxEventsPerTrace ≥ 0 ∧ (acc.length : Int) ≥ s.maxEventsPerTrace
    · have hlen : acc.length = m := by omega
      simp only [hcap, and_self, if_true]
      rw [List.take_append_of_le_length (by omega), List.take_of_length_le (by omega)]
    · have hlt : acc.length < m := by omega
      by_cases h : s.shouldAnalyze SampleByRate ws = true
      · simp only [h, hcap, if_true, if_false]
        rw [ih (acc ++ [ws.Span]) (by simp; omega)]
        simp [h]
      · simp only [h, hcap, if_false, Bool.false_eq_true]
        rw [ih acc hacc]
        simp [h]

/-- The method `legacyTransactionSampler.Extract` returns the spans eligible
under the legacy policy, in trace order, cut by the cap. -/
theorem legacyTransaction_extract_eq_capped (SampleByRate : Nat → Rate → Bool)
    (policy : GoMap Rate) (n : Int) (t : ProcessedTrace) :
    (newLegacyTransactionSampler policy n).Extract SampleByRate t =
      capped n ((t.WeightedTrace.filter
        (fun ws => decide (LegacyEligible SampleByRate policy ws))).map (fun ws => ws.Span)) := by
  have hf : (t.WeightedTrace.filter (fun ws =>
        (newLegacyTransactionSampler policy n).shouldAnalyze SampleByRate ws)) =
      t.WeightedTrace.filter (fun ws => decide (LegacyEligible SampleByRate policy ws)) := by
    apply List.filter_congr
    intro ws _
    rw [Bool.eq_iff_iff, legacyTransaction_shouldAnalyze_iff]
    simp
  unfold legacyTransactionSampler.Extract capped
  by_cases hn : n < 0
  · rw [legacyTransaction_extractLoop_neg SampleByRate _
      (by simpa [newLegacyTransactionSampler] using hn), hf]
    simp [hn]
  · rw [legacyTransaction_extractLoop_cap SampleByRate _ n.toNat
      (by simp [newLegacyTransactionSampler, Int.toNat_of_nonneg (not_lt.mp hn)]) _ [] (by simp),
      hf]
    simp [hn]

/-- Claim C3, as stated, fails: with `MaxEventsPerTrace = 1` the extractor built
by `eventextractor.FromConf` returns two events for a trace of two matching
spans of a manually kept trace. -/
theorem fromConf_extract_exceeds_cap :
    (0 : Int) ≤ cappedConf.MaxEventsPerTrace ∧
    (((eventextractor.FromConf cappedConf).Extract keepNothing twoSpanTrace true).length : Int) >
      cappedConf.MaxEventsPerTrace := by
  decide

/-- Claim C3, amended: the extractor built by `eventextractor.FromConf` carries no
cap: whatever `MaxEventsPerTrace = n >= 0` is, its `Extract` returns one event per
span that the transaction sampler of the same configuration returns without a
cap. The cap is honoured by the sampler built by `NewTransactionSampler`
(`transactionSampler` or `legacyTransactionSampler`) only: its `Extract` returns
the first `n` spans of its uncapped output, hence at most `n`. -/
theorem cap_honoured_by_transaction_sampler_only (SampleByRate : Nat → Rate → Bool)
    (conf : AgentConfig) (t : ProcessedTrace) (b : Bool) (hn : 0 ≤ conf.MaxEventsPerTrace) :
    (eventextractor.FromConf conf).Extract SampleByRate t b =
      ((NewTransactionSampler { conf with MaxEventsPerTrace := -1 }).Extract SampleByRate t).map
        (fun span => { Span := span, TraceSampled := b }) ∧
    (NewTransactionSampler conf).Extract SampleByRate t =
      ((NewTransactionSampler { conf with MaxEventsPerTrace := -1 }).Extract SampleByRate t).take
        conf.MaxEventsPerTrace.toNat ∧
    (((NewTransactionSampler conf).Extract SampleByRate t).length : Int) ≤
      conf.MaxEventsPerTrace := by
  have hlt : ¬ conf.MaxEventsPerTrace < 0 := not_lt.mpr hn
  have hmain : (eventextractor.FromConf conf).Extract SampleByRate t b =
      ((NewTransactionSampler { conf with MaxEventsPerTrace := -1 }).Extract SampleByRate t).map
        (fun span => { Span := span, TraceSampled := b }) ∧
    (NewTransactionSampler conf).Extract SampleByRate t =
      ((NewTransactionSampler { conf with MaxEventsPerTrace := -1 }).Extract SampleByRate t).take
        conf.MaxEventsPerTrace.toNat := by
    unfold eventextractor.FromConf NewTransactionSampler
    by_cases h1 : conf.AnalyzedSpansByService.len > 0
    · simp only [h1, if_true, Extractor.Extract, TransactionSampler.Extract]
      rw [analyzed_extract_eq, transaction_extract_eq_capped, transaction_extract_eq_capped]
      simp [capped, hlt, List.map_map, Function.comp_def]
    · by_cases h2 : conf.AnalyzedRateByServiceLegacy.len > 0
      · simp only [h1, h2, if_true, if_false, Extractor.Extract, TransactionSampler.Extract]
        rw [legacy_extract_eq, legacyTransaction_extract_eq_capped,
          legacyTransaction_extract_eq_capped]
        simp [capped, hlt, List.map_map, Function.comp_def]
      · simp [h1, h2, Extractor.Extract, TransactionSampler.Extract,
          DisabledExtractor.Extract, disabledTransactionSampler.Extract]
  refine ⟨hmain.1, hmain.2, ?_⟩
  rw [hmain.2, List.length_take]
  have := Int.toNat_of_nonneg hn
  omega

/-- The amended claim C3 at the configuration with cap 1 and the manually kept
trace of two matching spans. -/
theorem cap_honoured_by_transaction_sampler_only_witness :
    (0 : Int) ≤ cappedConf.MaxEventsPerTrace ∧
    ((eventextractor.FromConf cappedConf).Extract keepNothing twoSpanTrace true).length = 2 ∧
    ((NewTransactionSampler cappedConf).Extract keepNothing twoSpanTrace).length = 1 ∧
    (((NewTransactionSampler cappedConf).Extract keepNothing twoSpanTrace).length : Int) ≤
      cappedConf.MaxEventsPerTrace :=
  ⟨by decide, by decide, by decide,
    (cap_honoured_by_transaction_sampler_only keepNothing cappedConf twoSpanTrace true
      (by decide)).2.2⟩

/-- For a manually kept trace, eligibility is presence in the policy. -/
theorem eligible_iff_inPolicy (SampleByRate : Nat → Rate → Bool) (policy : GoMap (GoMap Rate))
    (t : ProcessedTrace) (ws : WeightedSpan) (hp : HighPriority t) :
    Eligible SampleByRate policy t ws ↔ inPolicy policy ws = true := by
  unfold Eligible inPolicy
  cases h : policyRate policy ws with
  | none => simp
  | some r => simp [hp]

/-- For a trace that is not manually kept, eligibility is the verdict of the
rate sampler at the configured rate. -/
theorem eligible_iff_keptByRate (SampleByRate : Nat → Rate → Bool)
    (policy : GoMap (GoMap Rate)) (t : ProcessedTrace) (ws : WeightedSpan)
    (hp : ¬ HighPriority t) :
    Eligible SampleByRate policy t ws ↔ keptByRate SampleByRate policy ws = true := by
  unfold Eligible keptByRate
  cases h : policyRate policy ws with
  | none => simp
  | some r => simp [hp]

/-- Claim C4: for a trace whose root carries a sampling priority (the 64-bit
`int(v)` of the root's metric, as `GetSamplingPriority` returns it) >= 2, the
current-policy `Extract` emits every span whose (service, operation) pair is
present in the policy, whatever its rate, up to the per-trace cap (the
`AnalyzedExtractor` has no cap, the `transactionSampler` cuts at its cap); with
a priority below 2 or no priority, it emits a span only if its pair is in the
policy and `SampleByRate` keeps it at the configured rate. The priority is at
least 2 exactly when `GetSamplingPriority` returns a set flag and an `int` of at
least 2. -/
theorem manual_keep_bypasses_rate (SampleByRate : Nat → Rate → Bool)
    (policy : GoMap (GoMap Rate)) (n : Int) (t : ProcessedTrace) (b : Bool) :
    (HighPriority t →
      (NewAnalyzed policy).Extract SampleByRate t b =
        (t.WeightedTrace.filter (inPolicy policy)).map
          (fun ws => { Span := ws.Span, TraceSampled := b }) ∧
      (newTransactionSampler policy n).Extract SampleByRate t =
        capped n ((t.WeightedTrace.filter (inPolicy policy)).map (fun ws => ws.Span))) ∧
    (¬ HighPriority t →
      (NewAnalyzed policy).Extract SampleByRate t b =
        (t.WeightedTrace.filter (keptByRate SampleByRate policy)).map
          (fun ws => { Span := ws.Span, TraceSampled := b }) ∧
      (newTransactionSampler policy n).Extract SampleByRate t =
        capped n ((t.WeightedTrace.filter (keptByRate SampleByRate policy)).map
          (fun ws => ws.Span))) ∧
    (HighPriority t ↔ t.GetSamplingPriority.2 = true ∧ 2 ≤ t.GetSamplingPriority.1) := by
  rw [analyzed_extract_eq, transaction_extract_eq_capped]
  refine ⟨?_, ?_, highPriority_iff_returned t⟩
  · intro hp
    have hf : t.WeightedTrace.filter (fun ws => decide (Eligible SampleByRate policy t ws)) =
        t.WeightedTrace.filter (inPolicy policy) := by
      apply List.filter_congr
      intro ws _
      rw [Bool.eq_iff_iff, ← eligible_iff_inPolicy SampleByRate policy t ws hp]
      simp
    rw [hf]
    exact ⟨rfl, rfl⟩
  · intro hp
    have hf : t.WeightedTrace.filter (fun ws => decide (Eligible SampleByRate policy t ws)) =
        t.WeightedTrace.filter (keptByRate SampleByRate policy) := by
      apply List.filter_congr
      intro ws _
      rw [Bool.eq_iff_iff, ← eligible_iff_keptByRate SampleByRate policy t ws hp]
      simp
    rw [hf]
    exact ⟨rfl, rfl⟩

/-- The cases of `TestTransactionSampler` at rate 0, read off claim C4: with
priority 2 the span of `mySampledService` is extracted although the rate sampler
keeps nothing, with priority 1 or none it is not; nor is it with a root metric
of 10^19, which the 64-bit `int(v)` turns into the smallest `int64`. -/
theorem manual_keep_bypasses_rate_witness :
    (newTransactionSampler testPolicy 10).Extract keepNothing
        (createTrace "mySampledService" "myOperation" true true 2) =
      [{ Service := "mySampledService", Name := "myOperation",
         Metrics := [(SamplingPriorityKey, 2)] }] ∧
    (newTransactionSampler testPolicy 10).Extract keepNothing
        (createTrace "mySampledService" "myOperation" true true 1) = [] ∧
    (newTransactionSampler testPolicy 10).Extract keepNothing
        (createTrace "mySampledService" "myOperation" true false 0) = [] ∧
    (newTransactionSampler testPolicy 10).Extract keepNothing
        (createTrace "mySampledService" "myOperation" true true (10 ^ 19)) = [] := by
  have h2 : HighPriority (createTrace "mySampledService" "myOperation" true true 2) := by decide
  have h1 : ¬ HighPriority (createTrace "mySampledService" "myOperation" true true 1) := by
    decide
  have h0 : ¬ HighPriority (createTrace "mySampledService" "myOperation" true false 0) := by
    decide
  have hbig : ¬ HighPriority
      (createTrace "mySampledService" "myOperation" true true (10 ^ 19)) := by
    decide
  refine ⟨?_, ?_, ?_, ?_⟩
  · rw [((manual_keep_bypasses_rate keepNothing testPolicy 10 _ true).1 h2).2]
    decide
  · rw [((manual_keep_bypasses_rate keepNothing testPolicy 10 _ true).2.1 h1).2]
    decide
  · rw [((manual_keep_bypasses_rate keepNothing testPolicy 10 _ true).2.1 h0).2]
    decide
  · rw [((manual_keep_bypasses_rate keepNothing testPolicy 10 _ true).2.1 hbig).2]
    decide

/-- A filter whose test implies another one yields a sublist of the other
filter's result. -/
theorem filter_sublist_filter_of_imp {α : Type} (p q : α → Bool)
    (h : ∀ a, p a = true → q a = true) (l : List α) :
    (l.filter p).Sublist (l.filter q) := by
  induction l with
  | nil => simp
  | cons a rest ih =>
    by_cases hp : p a = true
    · simp [List.filter_cons, hp, h a hp, ih]
    · by_cases hq : q a = true
      · simp only [List.filter_cons, hp, hq, if_true, if_false, Bool.false_eq_true]
        exact List.Sublist.cons a ih
      · simp [List.filter_cons, hp, hq, ih]

/-- The cut by a cap is a sublist. -/
theorem capped_sublist {α : Type} (n : Int) (l : List α) : (capped n l).Sublist l := by
  unfold capped
  split
  · exact List.Sublist.refl l
  · exact List.take_sublist _ _

/-- Claim C5: for every legacy policy, cap and trace, the output of the legacy
`Extract` (`LegacyAnalyzedExtractor.Extract` and
`legacyTransactionSampler.Extract`) is drawn, in order, from the weighted spans
with `TopLevel = true` only: no span with `TopLevel = false` is emitted, whatever
the rate of its service. -/
theorem legacy_emits_top_level_only (SampleByRate : Nat → Rate → Bool) (policy : GoMap Rate)
    (n : Int) (t : ProcessedTrace) (b : Bool) :
    ((NewLegacyAnalyzed policy).Extract SampleByRate t b).Sublist
      ((t.WeightedTrace.filter (fun ws => ws.TopLevel)).map
        (fun ws => { Span := ws.Span, TraceSampled := b })) ∧
    ((newLegacyTransactionSampler policy n).Extract SampleByRate t).Sublist
      ((t.WeightedTrace.filter (fun ws => ws.TopLevel)).map (fun ws => ws.Span)) := by
  have hsub : (t.WeightedTrace.filter
        (fun ws => decide (LegacyEligible SampleByRate policy ws))).Sublist
      (t.WeightedTrace.filter (fun ws => ws.TopLevel)) := by
    apply filter_sublist_filter_of_imp
    intro ws h
    exact (of_decide_eq_true h).1
  constructor
  · rw [legacy_extract_eq]
    exact hsub.map _
  · rw [legacyTransaction_extract_eq_capped]
    exact (capped_sublist _ _).trans (hsub.map _)

/-- Claim C6: the extractor built by `FromConf`, and the sampler built by
`NewTransactionSampler`, is the current-policy one whenever
`AnalyzedSpansByService` is non-empty (whatever the legacy map holds), the
legacy-policy one when only `AnalyzedRateByServiceLegacy` is non-empty, and the
disabled one otherwise; the disabled one extracts nothing from any trace. -/
theorem fromConf_selects_variant (SampleByRate : Nat → Rate → Bool) (conf : AgentConfig) :
    (conf.AnalyzedSpansByService ≠ [] →
      eventextractor.FromConf conf = .analyzed (NewAnalyzed conf.AnalyzedSpansByService) ∧
      NewTransactionSampler conf =
        .current (newTransactionSampler conf.AnalyzedSpansByService conf.MaxEventsPerTrace)) ∧
    (conf.AnalyzedSpansByService = [] → conf.AnalyzedRateByServiceLegacy ≠ [] →
      eventextractor.FromConf conf =
        .legacyAnalyzed (NewLegacyAnalyzed conf.AnalyzedRateByServiceLegacy) ∧
      NewTransactionSampler conf =
        .legacy (newLegacyTransactionSampler conf.AnalyzedRateByServiceLegacy
          conf.MaxEventsPerTrace)) ∧
    (conf.AnalyzedSpansByService = [] → conf.AnalyzedRateByServiceLegacy = [] →
      eventextractor.FromConf conf = .disabled {} ∧
      NewTransactionSampler conf = .disabled {}) ∧
    (∀ (t : ProcessedTrace) (b : Bool),
      (Extractor.disabled {}).Extract SampleByRate t b = [] ∧
      (TransactionSampler.disabled {}).Extract SampleByRate t = []) := by
  refine ⟨?_, ?_, ?_, ?_⟩
  · intro h
    have hlen : conf.AnalyzedSpansByService.len > 0 := List.length_pos.mpr h
    simp [eventextractor.FromConf, NewTransactionSampler, hlen]
  · intro h1 h2
    have hlen : conf.AnalyzedRateByServiceLegacy.len > 0 := List.length_pos.mpr h2
    simp [eventextractor.FromConf, NewTransactionSampler, h1, h2, GoMap.len]
  · intro h1 h2
    simp [eventextractor.FromConf, NewTransactionSampler, h1, h2, GoMap.len]
  · intro t b
    exact ⟨rfl, rfl⟩

/-- Claim C6 at three configurations: both maps set, the legacy map only, none. -/
theorem fromConf_selects_variant_witness :
    eventextractor.FromConf
        { AnalyzedSpansByService := testPolicy
          AnalyzedRateByServiceLegacy := [("myService", 1)] } =
      .analyzed (NewAnalyzed testPolicy) ∧
    eventextractor.FromConf { AnalyzedRateByServiceLegacy := [("myService", 1)] } =
      .legacyAnalyzed (NewLegacyAnalyzed [("myService", 1)]) ∧
    eventextractor.FromConf {} = .disabled {} :=
  ⟨((fromConf_selects_variant keepNothing
      { AnalyzedSpansByService := testPolicy
        AnalyzedRateByServiceLegacy := [("myService", 1)] }).1 (by decide)).1,
   ((fromConf_selects_variant keepNothing
      { AnalyzedRateByServiceLegacy := [("myService", 1)] }).2.1 rfl (by decide)).1,
   ((fromConf_selects_variant keepNothing {}).2.2.1 rfl rfl).1⟩

/-- The loop of `SamplerChain.Sample` either stops at the first sampler that
decides, with that sampler's answer and the state it left, or finds that every
sampler abstains. -/
theorem sampleLoop_cases {σ : Type} (event : APMEvent) (samplers : List (Sampler σ)) (st : σ) :
    (∃ pre s post, samplers = pre ++ s :: post ∧
        (∀ d ∈ (consultAll event pre st).1, d = SamplingDecision.NO_DECISION) ∧
        (s.Sample event (consultAll event pre st).2).1 ≠ SamplingDecision.NO_DECISION ∧
        SamplerChain.sampleLoop event samplers st =
          s.Sample event (consultAll event pre st).2) ∨
    ((∀ d ∈ (consultAll event samplers st).1, d = SamplingDecision.NO_DECISION) ∧
      SamplerChain.sampleLoop event samplers st =
        (SamplingDecision.NO_DECISION, (consultAll event samplers st).2)) := by
  induction samplers generalizing st with
  | nil =>
    right
    simp [consultAll, SamplerChain.sampleLoop]
  | cons s rest ih =>
    by_cases hd : (s.Sample event st).1 = SamplingDecision.NO_DECISION
    · have hstep : SamplerChain.sampleLoop event (s :: rest) st =
          SamplerChain.sampleLoop event rest (s.Sample event st).2 := by
        simp [SamplerChain.sampleLoop, hd]
      rcases ih (s.Sample event st).2 with ⟨pre, s1, post, hsplit, hpre, hdec, hres⟩ | ⟨hall, hres⟩
      · left
        refine ⟨s :: pre, s1, post, by simp [hsplit], ?_, ?_, ?_⟩
        · intro d hmem
          simp only [consultAll, List.mem_cons] at hmem
          rcases hmem with h | h
          · rw [h, hd]
          · exact hpre d h
        · simpa [consultAll] using hdec
        · rw [hstep, hres]
          simp [consultAll]
      · right
        refine ⟨?_, ?_⟩
        · intro d hmem
          simp only [consultAll, List.mem_cons] at hmem
          rcases hmem with h | h
          · rw [h, hd]
          · exact hall d h
        · rw [hstep, hres]
          simp [consultAll]
    · left
      refine ⟨[], s, rest, rfl, by simp [consultAll], by simpa [consultAll] using hd, ?_⟩
      simp [SamplerChain.sampleLoop, consultAll, hd]

/-- The loop of `SamplerChain.Sample` answers `NO_DECISION` exactly when every
sampler, consulted in order, abstains. -/
theorem sampleLoop_no_decision_iff {σ : Type} (event : APMEvent)
    (samplers : List (Sampler σ)) (st : σ) :
    (SamplerChain.sampleLoop event samplers st).1 = SamplingDecision.NO_DECISION ↔
      ∀ d ∈ (consultAll event samplers st).1, d = SamplingDecision.NO_DECISION := by
  induction samplers generalizing st with
  | nil => simp [consultAll, SamplerChain.sampleLoop]
  | cons s rest ih =>
    by_cases hd : (s.Sample event st).1 = SamplingDecision.NO_DECISION
    · have hstep : SamplerChain.sampleLoop event (s :: rest) st =
          SamplerChain.sampleLoop event rest (s.Sample event st).2 := by
        simp [SamplerChain.sampleLoop, hd]
      rw [hstep, ih]
      simp [consultAll, hd]
    · have hstep : SamplerChain.sampleLoop event (s :: rest) st = s.Sample event st := by
        simp [SamplerChain.sampleLoop, hd]
      rw [hstep]
      simp [consultAll, hd]

/-- Claim C7: `SamplerChain.Sample` consults the samplers in order and returns the
decision of the first sampler whose decision is not `NO_DECISION`, in the state
that sampler left, so that no later sampler is consulted; it returns
`NO_DECISION` iff every sampler returns `NO_DECISION`, in particular for the
empty chain. -/
theorem samplerChain_first_decision {σ : Type} (samplers : List (Sampler σ))
    (callback : SamplingDecision → σ → σ) (event : APMEvent) (st : σ) :
    ((∃ pre s post, samplers = pre ++ s :: post ∧
        (∀ d ∈ (consultAll event pre st).1, d = SamplingDecision.NO_DECISION) ∧
        (s.Sample event (consultAll event pre st).2).1 ≠ SamplingDecision.NO_DECISION ∧
        (NewSamplerChain samplers callback).Sample event st =
          s.Sample event (consultAll event pre st).2) ∨
      ((∀ d ∈ (consultAll event samplers st).1, d = SamplingDecision.NO_DECISION) ∧
        (NewSamplerChain samplers callback).Sample event st =
          (SamplingDecision.NO_DECISION, (consultAll event samplers st).2))) ∧
    (((NewSamplerChain samplers callback).Sample event st).1 = SamplingDecision.NO_DECISION ↔
      ∀ d ∈ (consultAll event samplers st).1, d = SamplingDecision.NO_DECISION) ∧
    (NewSamplerChain [] callback).Sample event st = (SamplingDecision.NO_DECISION, st) :=
  ⟨sampleLoop_cases event samplers st, sampleLoop_no_decision_iff event samplers st, rfl⟩

/-- Claim C7 on the chain of `FromConf` over a recording counter: for an event of
an unsampled trace the pass-through abstains and the max-EPS sampler decides
after one read of the rate; for an event of a sampled trace the pass-through
decides and the counter is not even read. -/
theorem samplerChain_first_decision_witness :
    (eventsampler.chainFromConf keepAtFullRate recordingRateCounter epsConf).Sample
        unsampledEvent {} = (SamplingDecision.SAMPLE, { getSampledRate := 1 }) ∧
    (eventsampler.chainFromConf keepAtFullRate recordingRateCounter epsConf).Sample
        sampledEvent {} = (SamplingDecision.SAMPLE, {}) ∧
    ((eventsampler.chainFromConf keepAtFullRate recordingRateCounter epsConf).Sample
        sampledEvent {}).1 ≠ SamplingDecision.NO_DECISION := by
  refine ⟨by decide, by decide, ?_⟩
  intro h
  have hall := (samplerChain_first_decision
    (eventsampler.chainFromConf keepAtFullRate recordingRateCounter epsConf).samplers
    (eventsampler.chainFromConf keepAtFullRate recordingRateCounter epsConf).callback
    sampledEvent {}).2.1.mp h
  exact absurd (hall SamplingDecision.SAMPLE (by decide)) (by decide)

/-- Claim C8, on the code: `SamplerChain.Sample` never invokes the chain's
callback. On the chain of `FromConf` over a recording counter, whose callback
counts a `SAMPLE`, an event of a sampled trace and an event of an unsampled trace
are both decided `SAMPLE` and the counter has received no `CountSampled` call,
where the claim has the callback invoked once with `SAMPLE`; and replacing the
callback of any chain by one that does nothing changes no result. -/
theorem samplerChain_never_invokes_callback :
    (eventsampler.chainFromConf keepAtFullRate recordingRateCounter epsConf).callback
        SamplingDecision.SAMPLE {} = { countSampled := 1 } ∧
    (eventsampler.chainFromConf keepAtFullRate recordingRateCounter epsConf).Sample
        sampledEvent {} = (SamplingDecision.SAMPLE, { countSampled := 0 }) ∧
    (eventsampler.chainFromConf keepAtFullRate recordingRateCounter epsConf).Sample
        unsampledEvent {} =
      (SamplingDecision.SAMPLE, { countSampled := 0, getSampledRate := 1 }) ∧
    (∀ (σ : Type) (samplers : List (Sampler σ)) (callback : SamplingDecision → σ → σ)
        (event : APMEvent) (st : σ),
      (NewSamplerChain samplers callback).Sample event st =
        (NewSamplerChain samplers (fun _ st1 => st1)).Sample event st) :=
  ⟨by decide, by decide, by decide, fun _ _ _ _ _ => rfl⟩

/-- Claim C9: for the chain [SampledTraceSampler, MaxEPSSampler] (with any
callback, and as built by `FromConf`) and every event with `TraceSampled = true`,
`SamplerChain.Sample` returns `SAMPLE` whatever the counter and `maxEPS` are, and
leaves the state as it was: the rate counter of the `MaxEPSSampler`, whose
methods may act on the state in any way, is neither read (the `MaxEPSSampler` is
not invoked) nor told `CountSampled`. -/
theorem chain_shortcut_on_sampled_trace {σ : Type} (SampleByRate : Nat → Rate → Bool)
    (maxEPS : Rate) (rateCounter : RateCounter σ) (callback : SamplingDecision → σ → σ)
    (conf : AgentConfig) (event : APMEvent) (st : σ) (h : event.TraceSampled = true) :
    (NewSamplerChain
        [NewSampledTraceSampler.asSampler,
          (NewMaxEPSSampler maxEPS rateCounter).asSampler SampleByRate]
        callback).Sample event st = (SamplingDecision.SAMPLE, st) ∧
    (eventsampler.chainFromConf SampleByRate rateCounter conf).Sample event st =
      (SamplingDecision.SAMPLE, st) := by
  constructor
  · simp [SamplerChain.Sample, NewSamplerChain, SamplerChain.sampleLoop,
      SampledTraceSampler.asSampler, SampledTraceSampler.Sample, h]
  · simp [eventsampler.chainFromConf, SamplerChain.Sample, NewSamplerChain,
      SamplerChain.sampleLoop, SampledTraceSampler.asSampler, SampledTraceSampler.Sample, h]

/-- Claim C9 over a recording counter that has already counted 1000 events
against a target of 10 per second: the event of a sampled trace is kept and the
log of the counter's calls is unchanged. -/
theorem chain_shortcut_on_sampled_trace_witness :
    sampledEvent.TraceSampled = true ∧
    (NewSamplerChain
        [NewSampledTraceSampler.asSampler,
          (NewMaxEPSSampler 10 recordingRateCounter).asSampler keepNothing]
        (fun _ log => log)).Sample sampledEvent { countSampled := 1000 } =
      (SamplingDecision.SAMPLE, { countSampled := 1000, getSampledRate := 0 }) :=
  ⟨rfl, (chain_shortcut_on_sampled_trace keepNothing 10 recordingRateCounter
    (fun _ log => log) epsConf sampledEvent { countSampled := 1000 } rfl).1⟩

/-- Claim C10: `SampledTraceSampler.Sample` returns `SAMPLE` iff
`event.TraceSampled` is true, returns `NO_DECISION` otherwise, and never returns
`DONT_SAMPLE`; used as a `Sampler` it returns that decision and leaves the state
as it was. -/
theorem sampledTraceSampler_sample (sts : SampledTraceSampler) (event : APMEvent) :
    (sts.Sample event = SamplingDecision.SAMPLE ↔ event.TraceSampled = true) ∧
    (sts.Sample event = SamplingDecision.NO_DECISION ↔ event.TraceSampled = false) ∧
    sts.Sample event ≠ SamplingDecision.DONT_SAMPLE ∧
    (∀ (σ : Type) (st : σ), sts.asSampler.Sample event st = (sts.Sample event, st)) := by
  unfold SampledTraceSampler.Sample
  cases h : event.TraceSampled with
  | false => simp [SampledTraceSampler.asSampler, SampledTraceSampler.Sample, h]
  | true => simp [SampledTraceSampler.asSampler, SampledTraceSampler.Sample, h]

/-- The underlying sampler gives one answer per event. -/
theorem consultEach_length {σ : Type} (sampler : Sampler σ) (events : List APMEvent) (st : σ) :
    (consultEach sampler events st).1.length = events.length := by
  induction events generalizing st with
  | nil => simp [consultEach]
  | cons event rest ih => simp [consultEach, ih]

/-- The loop of `BatchSampler.Sample` appends to `result` the events answered
`SAMPLE`, in order, and leaves the state the last consultation left. -/
theorem batch_sampleLoop_eq {σ : Type} (bs : BatchSampler σ) (events result : List APMEvent)
    (st : σ) :
    BatchSampler.sampleLoop bs events result st =
      (result ++ ((events.zip (consultEach bs.sampler events st).1).filter
          (fun p => decide (p.2 = SamplingDecision.SAMPLE))).map Prod.fst,
        (consultEach bs.sampler events st).2) := by
  induction events generalizing result st with
  | nil => simp [BatchSampler.sampleLoop, consultEach]
  | cons event rest ih =>
    unfold BatchSampler.sampleLoop
    by_cases h : (bs.sampler.Sample event st).1 = SamplingDecision.SAMPLE
    · simp [h, ih, consultEach]
    · simp [h, ih, consultEach]

/-- Claim C11: for every underlying sampler and list of events,
`BatchSampler.Sample` returns exactly the events for which the underlying
sampler, consulted on each event in input order, answered `SAMPLE`, in their
input order; the result is a sublist of the input, never longer than it, and
events answered `DONT_SAMPLE` or `NO_DECISION` are dropped. -/
theorem batchSampler_keeps_sampled {σ : Type} (sampler : Sampler σ) (events : List APMEvent)
    (st : σ) :
    ((NewBatchSampler sampler).Sample events st).1 =
      ((events.zip (consultEach sampler events st).1).filter
        (fun p => decide (p.2 = SamplingDecision.SAMPLE))).map Prod.fst ∧
    ((NewBatchSampler sampler).Sample events st).2 = (consultEach sampler events st).2 ∧
    (((NewBatchSampler sampler).Sample events st).1).Sublist events ∧
    (((NewBatchSampler sampler).Sample events st).1).length ≤ events.length := by
  have heq : (NewBatchSampler sampler).Sample events st =
      (((events.zip (consultEach sampler events st).1).filter
          (fun p => decide (p.2 = SamplingDecision.SAMPLE))).map Prod.fst,
        (consultEach sampler events st).2) := by
    unfold BatchSampler.Sample
    rw [batch_sampleLoop_eq]
    simp [NewBatchSampler]
  have hsub : (((events.zip (consultEach sampler events st).1).filter
      (fun p => decide (p.2 = SamplingDecision.SAMPLE))).map Prod.fst).Sublist events := by
    have h1 : ((events.zip (consultEach sampler events st).1).map Prod.fst) = events :=
      List.map_fst_zip _ _ (by rw [consultEach_length])
    have h2 := (List.filter_sublist
      (events.zip (consultEach sampler events st).1)
      (p := fun p => decide (p.2 = SamplingDecision.SAMPLE))).map Prod.fst
    rw [h1] at h2
    exact h2
  rw [heq]
  exact ⟨rfl, rfl, hsub, hsub.length_le⟩

/-- Claim C11 on the chain of `FromConf` over a recording counter with a rate
sampler that keeps nothing: of an event of a sampled trace and an event of an
unsampled one, the batch sampler returns the first only. -/
theorem batchSampler_keeps_sampled_witness :
    ((NewBatchSampler
        (eventsampler.chainFromConf keepNothing recordingRateCounter epsConf).asSampler).Sample
      [sampledEvent, unsampledEvent, sampledEvent] {}).1 = [sampledEvent, sampledEvent] ∧
    (consultEach (eventsampler.chainFromConf keepNothing recordingRateCounter epsConf).asSampler
      [sampledEvent, unsampledEvent, sampledEvent] {}).1 =
        [SamplingDecision.SAMPLE, SamplingDecision.DONT_SAMPLE, SamplingDecision.SAMPLE] := by
  refine ⟨?_, by decide⟩
  rw [(batchSampler_keeps_sampled
    (eventsampler.chainFromConf keepNothing recordingRateCounter epsConf).asSampler
    [sampledEvent, unsampledEvent, sampledEvent] {}).1]
  decide

/-- The decision of `MaxEPSSampler.Sample` is `SAMPLE` or `DONT_SAMPLE`
according to the verdict of the rate sampler at the rate the code computes. -/
theorem maxEPS_sample_decision {σ : Type} (SampleByRate : Nat → Rate → Bool)
    (s : MaxEPSSampler σ) (event : APMEvent) (st : σ) :
    (s.Sample SampleByRate event st).1 =
      if SampleByRate event.Span.TraceID
          (if (s.rateCounter.GetSampledRate st).1 > s.maxEPS then
            s.maxEPS / (s.rateCounter.GetSampledRate st).1 else 1) = true
      then SamplingDecision.SAMPLE else SamplingDecision.DONT_SAMPLE := by
  unfold MaxEPSSampler.Sample
  rw [show s.rateCounter.GetSampledRate st =
    ((s.rateCounter.GetSampledRate st).1, (s.rateCounter.GetSampledRate st).2) from rfl]
  simp only []
  split_ifs <;> simp_all

/-- The state `MaxEPSSampler.Sample` leaves: the one its counter's
`GetSampledRate` left, passed through the counter's `CountSampled` when the
event is sampled. -/
theorem maxEPS_sample_state {σ : Type} (SampleByRate : Nat → Rate → Bool)
    (s : MaxEPSSampler σ) (event : APMEvent) (st : σ) :
    (s.Sample SampleByRate event st).2 =
      if (s.Sample SampleByRate event st).1 = SamplingDecision.SAMPLE then
        s.rateCounter.CountSampled (s.rateCounter.GetSampledRate st).2
      else (s.rateCounter.GetSampledRate st).2 := by
  unfold MaxEPSSampler.Sample
  rw [show s.rateCounter.GetSampledRate st =
    ((s.rateCounter.GetSampledRate st).1, (s.rateCounter.GetSampledRate st).2) from rfl]
  simp only []
  split_ifs <;> simp_all

/-- Claim C12: for every `maxEPS`, counter reading `c` and event,
`MaxEPSSampler.Sample` never returns `NO_DECISION`: it returns `SAMPLE` iff
`SampleByRate(event.Span.TraceID, r)` is true, where `r = 1` when `c <= maxEPS` and
`r = maxEPS / c` when `c > maxEPS`, and `DONT_SAMPLE` otherwise. -/
theorem maxEPSSampler_sample_by_rate {σ : Type} (SampleByRate : Nat → Rate → Bool)
    (maxEPS : Rate) (rateCounter : RateCounter σ) (event : APMEvent) (st : σ) :
    ((NewMaxEPSSampler maxEPS rateCounter).Sample SampleByRate event st).1 ≠
      SamplingDecision.NO_DECISION ∧
    (((NewMaxEPSSampler maxEPS rateCounter).Sample SampleByRate event st).1 =
        SamplingDecision.SAMPLE ↔
      SampleByRate event.Span.TraceID
        (if (rateCounter.GetSampledRate st).1 ≤ maxEPS then 1
          else maxEPS / (rateCounter.GetSampledRate st).1) = true) ∧
    (((NewMaxEPSSampler maxEPS rateCounter).Sample SampleByRate event st).1 =
        SamplingDecision.DONT_SAMPLE ↔
      SampleByRate event.Span.TraceID
        (if (rateCounter.GetSampledRate st).1 ≤ maxEPS then 1
          else maxEPS / (rateCounter.GetSampledRate st).1) = false) := by
  have hrate : (if (rateCounter.GetSampledRate st).1 ≤ maxEPS then (1 : Rate)
        else maxEPS / (rateCounter.GetSampledRate st).1) =
      (if (rateCounter.GetSampledRate st).1 > maxEPS then
        maxEPS / (rateCounter.GetSampledRate st).1 else 1) := by
    by_cases h : (rateCounter.GetSampledRate st).1 ≤ maxEPS
    · simp [h, not_lt.mpr h]
    · simp [h, not_le.mp h]
  rw [maxEPS_sample_decision, hrate]
  simp only [NewMaxEPSSampler]
  cases SampleByRate event.Span.TraceID
      (if (rateCounter.GetSampledRate st).1 > maxEPS then
        maxEPS / (rateCounter.GetSampledRate st).1 else 1) <;> simp

/-- Claim C12 over a counter that has counted 40 events against a target of 10:
the rate handed to the rate sampler is 10 / 40, below the full rate, and the
event is dropped by a rate sampler that keeps at the full rate only; with 5
events counted the rate is 1 and the event is kept. -/
theorem maxEPSSampler_sample_by_rate_witness :
    ((NewMaxEPSSampler 10 plainRateCounter).Sample keepAtFullRate unsampledEvent 40).1 =
      SamplingDecision.DONT_SAMPLE ∧
    ((NewMaxEPSSampler 10 plainRateCounter).Sample keepAtFullRate unsampledEvent 5).1 =
      SamplingDecision.SAMPLE := by
  constructor
  · rw [(maxEPSSampler_sample_by_rate keepAtFullRate 10 plainRateCounter unsampledEvent 40).2.2]
    norm_num [keepAtFullRate, plainRateCounter]
  · rw [(maxEPSSampler_sample_by_rate keepAtFullRate 10 plainRateCounter unsampledEvent 5).2.1]
    norm_num [keepAtFullRate, plainRateCounter]

/-- Claim C13: whenever the rate counter's current sampled rate is at most
`maxEPS`, `MaxEPSSampler.Sample` returns `SAMPLE` for every event, given that
`SampleByRate` keeps every identifier at rate 1. -/
theorem maxEPSSampler_keeps_under_cap {σ : Type} (SampleByRate : Nat → Rate → Bool)
    (maxEPS : Rate) (rateCounter : RateCounter σ) (event : APMEvent) (st : σ)
    (hfull : ∀ traceID, SampleByRate traceID 1 = true)
    (hunder : (rateCounter.GetSampledRate st).1 ≤ maxEPS) :
    ((NewMaxEPSSampler maxEPS rateCounter).Sample SampleByRate event st).1 =
      SamplingDecision.SAMPLE := by
  rw [maxEPS_sample_decision]
  simp [NewMaxEPSSampler, not_lt.mpr hunder, hfull]

/-- Claim C13 with a target of 10 events per second and a counter reading 3. -/
theorem maxEPSSampler_keeps_under_cap_witness :
    (∀ traceID, keepAtFullRate traceID 1 = true) ∧
    (plainRateCounter.GetSampledRate 3).1 ≤ (10 : Rate) ∧
    ((NewMaxEPSSampler 10 plainRateCounter).Sample keepAtFullRate unsampledEvent 3).1 =
      SamplingDecision.SAMPLE :=
  ⟨fun _ => by simp [keepAtFullRate], by decide,
    maxEPSSampler_keeps_under_cap keepAtFullRate 10 plainRateCounter unsampledEvent 3
      (fun _ => by simp [keepAtFullRate]) (by decide)⟩

/-- Claim C14: for every backing `RateCounter`, `ReadOnlyRateCounter.GetSampledRate`
is the backing counter's `GetSampledRate`, while `ReadOnlyRateCounter.CountSampled`,
`Start` and `Stop` leave the state of the backing counter as it was; so
`MaxEPSSampler.Sample` over a read-only view does to the backing counter nothing
but read its rate once, whatever it decides, and leaves it unchanged whenever
that read does. -/
theorem readOnlyRateCounter_frame {σ : Type} (SampleByRate : Nat → Rate → Bool)
    (maxEPS : Rate) (rateCounter : RateCounter σ) (event : APMEvent) (st : σ) :
    (NewReadOnlyRateCounter rateCounter).GetSampledRate st = rateCounter.GetSampledRate st ∧
    (NewReadOnlyRateCounter rateCounter).CountSampled st = st ∧
    (NewReadOnlyRateCounter rateCounter).Start st = st ∧
    (NewReadOnlyRateCounter rateCounter).Stop st = st ∧
    ((NewMaxEPSSampler maxEPS (NewReadOnlyRateCounter rateCounter).asRateCounter).Sample
        SampleByRate event st).2 = (rateCounter.GetSampledRate st).2 ∧
    ((rateCounter.GetSampledRate st).2 = st →
      ((NewMaxEPSSampler maxEPS (NewReadOnlyRateCounter rateCounter).asRateCounter).Sample
        SampleByRate event st).2 = st) := by
  have hstate : ((NewMaxEPSSampler maxEPS
      (NewReadOnlyRateCounter rateCounter).asRateCounter).Sample SampleByRate event st).2 =
      (rateCounter.GetSampledRate st).2 := by
    rw [maxEPS_sample_state]
    simp [NewMaxEPSSampler, NewReadOnlyRateCounter, ReadOnlyRateCounter.asRateCounter,
      ReadOnlyRateCounter.GetSampledRate, ReadOnlyRateCounter.CountSampled]
  refine ⟨rfl, rfl, rfl, rfl, hstate, ?_⟩
  intro hread
  rw [hstate, hread]

/-- Claim C14 on a counter that has counted 5 events: sampling through the
read-only view keeps the event and leaves the count at 5, where sampling through
the counter itself raises it to 6. -/
theorem readOnlyRateCounter_frame_witness :
    (NewMaxEPSSampler 10 (NewReadOnlyRateCounter plainRateCounter).asRateCounter).Sample
        keepAtFullRate unsampledEvent 5 = (SamplingDecision.SAMPLE, 5) ∧
    (NewMaxEPSSampler 10 plainRateCounter).Sample keepAtFullRate unsampledEvent 5 =
      (SamplingDecision.SAMPLE, 6) := by
  refine ⟨Prod.ext ?_ ?_, by decide⟩
  · decide
  · exact (readOnlyRateCounter_frame keepAtFullRate 10 plainRateCounter unsampledEvent 5).2.2.2.2.2
      rfl

/-- Claim C19: `ProcessedTrace.GetSamplingPriority` returns `(0, false)` when `Root`
is nil or the root's `Metrics` has no entry under the sampling-priority key, and
`(int(v), true)` when the entry `v` is present, also when `v` is 0: absence and
zero are told apart by the flag. The conversion `int(v)` is the 64-bit one: the
priority returned is always in the range of `int64`, it is `v` itself for a whole
number of that range and the smallest `int64` for a whole number beyond it. -/
theorem getSamplingPriority_absent_or_present (pt : ProcessedTrace) :
    (pt.Root = none → pt.GetSamplingPriority = (0, false)) ∧
    (∀ root, pt.Root = some root → root.Metrics.get SamplingPriorityKey = none →
      pt.GetSamplingPriority = (0, false)) ∧
    (∀ root v, pt.Root = some root → root.Metrics.get SamplingPriorityKey = some v →
      pt.GetSamplingPriority = (goInt v, true)) ∧
    (∀ root, pt.Root = some root → root.Metrics.get SamplingPriorityKey = some 0 →
      pt.GetSamplingPriority = (0, true)) ∧
    (-2 ^ 63 ≤ pt.GetSamplingPriority.1 ∧ pt.GetSamplingPriority.1 < 2 ^ 63) ∧
    (∀ root (k : Int), pt.Root = some root →
      root.Metrics.get SamplingPriorityKey = some (k : Rate) →
      (-2 ^ 63 ≤ k → k < 2 ^ 63 → pt.GetSamplingPriority = (k, true)) ∧
      (k < -2 ^ 63 ∨ 2 ^ 63 ≤ k → pt.GetSamplingPriority = (-2 ^ 63, true))) := by
  have hzero : goInt 0 = 0 := by
    have h := goInt_intCast 0 (by norm_num) (by norm_num)
    simpa using h
  refine ⟨?_, ?_, ?_, ?_, ?_, ?_⟩
  · intro h
    simp [ProcessedTrace.GetSamplingPriority, h]
  · intro root h hm
    simp [ProcessedTrace.GetSamplingPriority, h, hm, hzero]
  · intro root v h hm
    simp [ProcessedTrace.GetSamplingPriority, h, hm]
  · intro root h hm
    simp [ProcessedTrace.GetSamplingPriority, h, hm, hzero]
  · cases hroot : pt.Root with
    | none => norm_num [ProcessedTrace.GetSamplingPriority, hroot]
    | some root =>
      cases hm : root.Metrics.get SamplingPriorityKey with
      | none => norm_num [ProcessedTrace.GetSamplingPriority, hroot, hm, hzero]
      | some v =>
        have hr := goInt_range v
        simpa [ProcessedTrace.GetSamplingPriority, hroot, hm] using hr
  · intro root k h hm
    constructor
    · intro hlo hhi
      simp [ProcessedTrace.GetSamplingPriority, h, hm, goInt_intCast k hlo hhi]
    · intro hout
      simp [ProcessedTrace.GetSamplingPriority, h, hm, goInt_intCast_overflow k hout]

/-- Claim C19 on the traces of `createTrace`: without a priority the result is
`(0, false)`, with priority 0 it is `(0, true)`, with priority 2 it is `(2, true)`,
a trace without a root gives `(0, false)`, and a root metric of 10^19, beyond the
range of `int64`, gives the smallest `int64` with the flag set. -/
theorem getSamplingPriority_absent_or_present_witness :
    (createTrace "myService" "myOperation" true false 0).GetSamplingPriority = (0, false) ∧
    (createTrace "myService" "myOperation" true true 0).GetSamplingPriority = (0, true) ∧
    (createTrace "myService" "myOperation" true true 2).GetSamplingPriority = (2, true) ∧
    ({} : ProcessedTrace).GetSamplingPriority = (0, false) ∧
    (createTrace "myService" "myOperation" true true (10 ^ 19)).GetSamplingPriority =
      (-2 ^ 63, true) :=
  ⟨by decide,
    (getSamplingPriority_absent_or_present
      (createTrace "myService" "myOperation" true true 0)).2.2.2.1
      { Service := "myService", Name := "myOperation", Metrics := [(SamplingPriorityKey, 0)] }
      (by decide) (by decide),
    by decide,
    (getSamplingPriority_absent_or_present {}).1 rfl,
    ((getSamplingPriority_absent_or_present
      (createTrace "myService" "myOperation" true true (10 ^ 19))).2.2.2.2.2
      { Service := "myService", Name := "myOperation",
        Metrics := [(SamplingPriorityKey, ((10 ^ 19 : Int) : Rate))] }
      (10 ^ 19) rfl rfl).2 (by norm_num)⟩

/-- A binding of the map after a store is a binding of the map before it or
the binding stored. -/
theorem GoMap.mem_set {V : Type} (m : GoMap V) (k : String) (v : V) (kv : String × V)
    (h : kv ∈ m.set k v) : kv ∈ m ∨ kv = (k, v) := by
  induction m with
  | nil =>
    simp only [GoMap.set, List.mem_singleton] at h
    exact Or.inr h
  | cons hd rest ih =>
    obtain ⟨k1, v1⟩ := hd
    unfold GoMap.set at h
    by_cases hk : k1 = k
    · simp only [hk, if_true, List.mem_cons] at h
      rcases h with h | h
      · exact Or.inr h
      · exact Or.inl (List.mem_cons_of_mem _ h)
    · simp only [hk, if_false, List.mem_cons] at h
      rcases h with h | h
      · exact Or.inl (by rw [h]; exact List.mem_cons_self _ _)
      · rcases ih h with h1 | h1
        · exact Or.inl (List.mem_cons_of_mem _ h1)
        · exact Or.inr h1

/-- The method `addToCount` stores none but new counts, whose value is 0. -/
theorem addToCount_values_zero (sb sb1 : StatsBucket) (m : String) (s : Span) (tgs : TagSet)
    (h : sb.addToCount m s tgs = some sb1) (hz : ∀ kv ∈ sb.Counts, kv.2.Value = 0) :
    ∀ kv ∈ sb1.Counts, kv.2.Value = 0 := by
  unfold StatsBucket.addToCount at h
  simp only [] at h
  split at h
  · cases h
    intro kv hkv
    simp only [] at hkv
    split at hkv
    · exact hz kv hkv
    · rcases GoMap.mem_set _ _ _ _ hkv with h1 | h1
      · exact hz kv h1
      · rw [h1]
        rfl
  · cases h

/-- The method `addToDistribution` leaves the counts as they are. -/
theorem addToDistribution_counts (sb sb1 : StatsBucket) (m : String) (s : Span) (tgs : TagSet)
    (h : sb.addToDistribution m s tgs = some sb1) : sb1.Counts = sb.Counts := by
  unfold StatsBucket.addToDistribution at h
  simp only [] at h
  split at h
  · cases h
    rfl
  · cases h

/-- The method `HandleSpan` keeps every count of the bucket at the value 0 when
they all were. -/
theorem handleSpan_values_zero (sb sb1 : StatsBucket) (s : Span)
    (h : sb.HandleSpan s = some sb1) (hz : ∀ kv ∈ sb.Counts, kv.2.Value = 0) :
    ∀ kv ∈ sb1.Counts, kv.2.Value = 0 := by
  have hcounts : ∀ (tgs : TagSet) (ms : List String) (a b : StatsBucket),
      StatsBucket.addToCounts s tgs ms a = some b → (∀ kv ∈ a.Counts, kv.2.Value = 0) →
      ∀ kv ∈ b.Counts, kv.2.Value = 0 := by
    intro tgs ms
    induction ms with
    | nil =>
      intro a b hab ha
      simp only [StatsBucket.addToCounts, Option.some.injEq] at hab
      rw [← hab]
      exact ha
    | cons m rest ih =>
      intro a b hab ha
      unfold StatsBucket.addToCounts at hab
      split at hab
      · next a1 ha1 => exact ih a1 b hab (addToCount_values_zero a a1 m s tgs ha1 ha)
      · cases hab
  have hdistros : ∀ (tgs : TagSet) (ms : List String) (a b : StatsBucket),
      StatsBucket.addToDistributions s tgs ms a = some b → b.Counts = a.Counts := by
    intro tgs ms
    induction ms with
    | nil =>
      intro a b hab
      simp only [StatsBucket.addToDistributions, Option.some.injEq] at hab
      rw [hab]
    | cons m rest ih =>
      intro a b hab
      unfold StatsBucket.addToDistributions at hab
      split at hab
      · next a1 ha1 => rw [ih a1 b hab, addToDistribution_counts a a1 m s tgs ha1]
      · cases hab
  have htag : ∀ (tgs : TagSet) (a b : StatsBucket), a.addToTagSet s tgs = some b →
      (∀ kv ∈ a.Counts, kv.2.Value = 0) → ∀ kv ∈ b.Counts, kv.2.Value = 0 := by
    intro tgs a b hab ha
    unfold StatsBucket.addToTagSet at hab
    split at hab
    · next a1 ha1 =>
      rw [hdistros tgs _ a1 b hab]
      exact hcounts tgs _ a a1 ha1 ha
    · cases hab
  unfold StatsBucket.HandleSpan at h
  simp only [] at h
  split at h
  · next a1 ha1 => exact htag _ a1 sb1 h (htag _ sb a1 ha1 hz)
  · cases h

/-- Repeated calls of `HandleSpan` on a bucket whose counts are all 0 leave
them all at 0. -/
theorem handleSpans_values_zero (s : Span) (n : Nat) (sb sb1 : StatsBucket)
    (h : handleSpans s n sb = some sb1) (hz : ∀ kv ∈ sb.Counts, kv.2.Value = 0) :
    ∀ kv ∈ sb1.Counts, kv.2.Value = 0 := by
  induction n generalizing sb with
  | zero =>
    simp only [handleSpans, Option.some.injEq] at h
    rw [← h]
    exact hz
  | succ n ih =>
    unfold handleSpans at h
    split at h
    · next a1 ha1 => exact ih a1 h (handleSpan_values_zero sb a1 s ha1 hz)
    · cases h

/-- Claim C15, on the code: `addToCount` drops the count that `Count.Add` returns,
so the counts of a bucket never leave 0. After three calls of `HandleSpan` with a
span of duration 100 on a fresh bucket, the hits and the duration counts of both
tag sets hold 0, where the claim has 3 and 300; and whatever the span and the
number of calls on a fresh bucket, every count of the bucket holds 0. -/
theorem handleSpan_count_add_dropped :
    (handleSpans webSpan 3 (NewStatsBucket 0 (1 / 100))).map
        (fun sb => (countValue sb HITS webByService, countValue sb DURATION webByService,
          countValue sb HITS webByServiceResource,
          countValue sb DURATION webByServiceResource)) =
      some (some 0, some 0, some 0, some 0) ∧
    (∀ (now : Int) (epsilon : Rate) (s : Span) (n : Nat) (sb : StatsBucket),
      handleSpans s n (NewStatsBucket now epsilon) = some sb →
      ∀ kv ∈ sb.Counts, kv.2.Value = 0) := by
  refine ⟨by decide, ?_⟩
  intro now epsilon s n sb h
  exact handleSpans_values_zero s n _ sb h (by simp [NewStatsBucket])

/-- Claim C16, on the code: `Count.Add` adds 1 to a count named `errors` for every
span, without reading the error flag. Adding a span whose error flag is not set
to a new `errors` count gives the value 1, where the claim leaves it at 0; and
for every `errors` count and span the new value is the old one plus 1. -/
theorem errors_count_ignores_error_flag :
    webSpan.Error = 0 ∧
    ((NewCount ERRORS webByService).Add webSpan).map (fun c => c.Value) = some 1 ∧
    (∀ (c : Count) (s : Span), c.Name = ERRORS →
      (c.Add s).map (fun c1 => c1.Value) = some (wrapInt64 (c.Value + 1))) := by
  refine ⟨rfl, by decide, ?_⟩
  intro c s h
  simp [Count.Add, h]

/-- Claim C17: `StatsBucket.MarshalJSON` panics for every bucket that has not been
closed (`Duration == 0`), whatever its counts and distributions, in particular for
a bucket fresh from `NewStatsBucket`, and does not panic for a bucket whose
`Duration` is not zero. -/
theorem marshalJSON_panics_iff_unclosed (sb : StatsBucket) :
    (sb.Duration = 0 → sb.MarshalJSON = none) ∧
    (sb.Duration ≠ 0 → ∃ out, sb.MarshalJSON = some out) ∧
    (∀ (now : Int) (epsilon : Rate), (NewStatsBucket now epsilon).MarshalJSON = none) := by
  refine ⟨?_, ?_, ?_⟩
  · intro h
    simp [StatsBucket.MarshalJSON, h]
  · intro h
    simp [StatsBucket.MarshalJSON, h]
  · intro now epsilon
    simp [StatsBucket.MarshalJSON, NewStatsBucket]

/-- Claim C17 on a bucket that has handled a span: marshalling panics while its
`Duration` is 0 and returns once the bucket is closed with a duration of 10. -/
theorem marshalJSON_panics_iff_unclosed_witness :
    ((NewStatsBucket 0 (1 / 100)).HandleSpan webSpan).map (fun sb => sb.MarshalJSON) =
      some none ∧
    ∃ out, ({ NewStatsBucket 0 (1 / 100) with Duration := 10 } : StatsBucket).MarshalJSON =
      some out :=
  ⟨by decide,
    (marshalJSON_panics_iff_unclosed { NewStatsBucket 0 (1 / 100) with Duration := 10 }).2.1
      (by decide)⟩

/-- A sum within the range of `int64` is not changed by the wrap. -/
theorem wrapInt64_of_inRange (x : Int) (hlo : -2 ^ 63 ≤ x) (hhi : x < 2 ^ 63) :
    wrapInt64 x = x := by
  unfold wrapInt64
  omega

/-- Claim C18: for a `Count` whose name is a custom metric (not hits, errors or
duration), `Count.Add(s)` panics iff the span's `Metrics` map is nil or has no
entry under that name, and otherwise returns the count with the same key, name
and tag set whose `Value` is the old `Value` plus the span's metric value (as an
`int64` sum, the exact sum when it is in range); likewise `Distribution.Add`
panics iff the name of a distribution other than duration is missing from the
span's `Metrics`, and never panics for the duration distribution. -/
theorem custom_metric_add_panics_iff_missing (c : Count) (s : Span)
    (hh : c.Name ≠ HITS) (he : c.Name ≠ ERRORS) (hd : c.Name ≠ DURATION) :
    (c.Add s = none ↔ s.Metrics.get c.Name = none) ∧
    (∀ v, s.Metrics.get c.Name = some v →
      c.Add s = some { Key := c.Key, Name := c.Name, TagSet := c.TagSet,
                       Value := wrapInt64 (c.Value + goInt v) } ∧
      (-2 ^ 63 ≤ c.Value + goInt v → c.Value + goInt v < 2 ^ 63 →
        (c.Add s).map (fun c1 => c1.Value) = some (c.Value + goInt v))) ∧
    (∀ d : Distribution, d.Name ≠ DURATION →
      (d.Add s = none ↔ s.Metrics.get d.Name = none)) ∧
    (∀ d : Distribution, d.Name = DURATION → d.Add s ≠ none) := by
  refine ⟨?_, ?_, ?_, ?_⟩
  · unfold Count.Add
    cases hm : s.Metrics.get c.Name <;> simp [hh, he, hd]
  · intro v hv
    have hadd : c.Add s =
        some { Key := c.Key, Name := c.Name, TagSet := c.TagSet,
               Value := wrapInt64 (c.Value + goInt v) } := by
      unfold Count.Add
      simp [hh, he, hd, hv]
    refine ⟨hadd, ?_⟩
    intro hlo hhi
    rw [hadd]
    simp [wrapInt64_of_inRange _ hlo hhi]
  · intro d hdn
    unfold Distribution.Add
    cases hm : s.Metrics.get d.Name <;> simp [hdn]
  · intro d hdn
    simp [Distribution.Add, hdn]

/-- Claim C18 on a count and a distribution named `db.rows`: adding a span that
carries `db.rows = 12` to a count of 30 gives 42, adding a span without that
metric panics. -/
theorem custom_metric_add_panics_iff_missing_witness :
    ({ Name := "db.rows", Value := 30 } : Count).Add { Metrics := [("db.rows", 12)] } =
      some { Name := "db.rows", Value := 42 } ∧
    ({ Name := "db.rows", Value := 30 } : Count).Add webSpan = none ∧
    ({ Name := "db.rows" } : Distribution).Add webSpan = none := by
  have hw := custom_metric_add_panics_iff_missing { Name := "db.rows", Value := 30 } webSpan
    (by decide) (by decide) (by decide)
  refine ⟨by decide, hw.1.mpr (by decide), (hw.2.2.1 { Name := "db.rows" } (by decide)).mpr
    (by decide)⟩

/-- Claim C20: the deterministic rate sampler is monotonic in the rate: for every
trace id and all rates `0 <= r1 <= r2 <= 1`, if `SampleByRate(id, r1)` keeps the
id then `SampleByRate(id, r2)` keeps it too, whatever the multiplicative constant
of the hash is. -/
theorem sampleByRate_monotonic (samplerHasher traceID : Nat) (r1 r2 : Rate)
    (_h0 : 0 ≤ r1) (h12 : r1 ≤ r2) (_h1 : r2 ≤ 1)
    (hkeep : SampleByRate samplerHasher traceID r1 = true) :
    SampleByRate samplerHasher traceID r2 = true := by
  unfold SampleByRate at hkeep ⊢
  rw [decide_eq_true_iff] at hkeep ⊢
  have hclamp : max 0 (min 1 r1) ≤ max 0 (min 1 r2) :=
    max_le_max le_rfl (min_le_min le_rfl h12)
  have hpow : (0 : Rate) ≤ 2 ^ 64 := by positivity
  exact lt_of_lt_of_le hkeep (mul_le_mul_of_nonneg_right hclamp hpow)

/-- Claim C20 at the trace id 42 with the example constant: the id is kept at
rate 3/5, hence at rate 4/5; it is not kept at rate 1/2. -/
theorem sampleByRate_monotonic_witness :
    SampleByRate exampleHasher 42 (3 / 5) = true ∧
    SampleByRate exampleHasher 42 (4 / 5) = true ∧
    SampleByRate exampleHasher 42 (1 / 2) = false := by
  have h35 : SampleByRate exampleHasher 42 (3 / 5) = true := by
    norm_num [SampleByRate, exampleHasher]
  refine ⟨h35, sampleByRate_monotonic exampleHasher 42 (3 / 5) (4 / 5) (by norm_num)
    (by norm_num) (by norm_num) h35, ?_⟩
  norm_num [SampleByRate, exampleHasher]

/-- The rate sampler keeps no identifier at rate 0. -/
theorem sampleByRate_zero (samplerHasher traceID : Nat) :
    SampleByRate samplerHasher traceID 0 = false := by
  unfold SampleByRate
  rw [decide_eq_false_iff_not]
  have hclamp : max (0 : Rate) (min 1 0) = 0 := by norm_num
  rw [hclamp, zero_mul, not_lt]
  exact Nat.cast_nonneg _

/-- The rate sampler keeps every identifier at rate 1. -/
theorem sampleByRate_one (samplerHasher traceID : Nat) :
    SampleByRate samplerHasher traceID 1 = true := by
  unfold SampleByRate
  rw [decide_eq_true_iff]
  have hclamp : max (0 : Rate) (min 1 1) = 1 := by norm_num
  rw [hclamp, one_mul]
  have hlt : (traceID * samplerHasher) % 2 ^ 64 < 2 ^ 64 := Nat.mod_lt _ (by positivity)
  exact_mod_cast hlt

/-- Claim C21: for every trace id the deterministic rate sampler keeps nothing at
rate 0 and everything at rate 1, whatever the multiplicative constant of the
hash is; hence, for the `AnalyzedExtractor` run with it, a span whose policy
entry has rate 1 is accepted by `shouldAnalyze` and yields an event of `Extract`,
and a span whose policy entry has rate 0 is accepted iff the root carries a
sampling priority >= 2, so that a trace whose spans all have rate 0 or no entry
yields no event unless the priority is >= 2. The priority is the 64-bit `int` that
`GetSamplingPriority` returns with its flag set. -/
theorem sampleByRate_zero_and_one (samplerHasher : Nat) (policy : GoMap (GoMap Rate))
    (t : ProcessedTrace) (b : Bool) :
    (∀ traceID, SampleByRate samplerHasher traceID 0 = false ∧
      SampleByRate samplerHasher traceID 1 = true) ∧
    (∀ ws, policyRate policy ws = some 1 →
      (NewAnalyzed policy).shouldAnalyze (SampleByRate samplerHasher) ws
        t.GetSamplingPriority.2 t.GetSamplingPriority.1 = true ∧
      (ws ∈ t.WeightedTrace →
        { Span := ws.Span, TraceSampled := b } ∈
          (NewAnalyzed policy).Extract (SampleByRate samplerHasher) t b)) ∧
    (∀ ws, policyRate policy ws = some 0 →
      ((NewAnalyzed policy).shouldAnalyze (SampleByRate samplerHasher) ws
        t.GetSamplingPriority.2 t.GetSamplingPriority.1 = true ↔ HighPriority t)) ∧
    ((∀ ws ∈ t.WeightedTrace, policyRate policy ws = some 0 ∨ policyRate policy ws = none) →
      ¬ HighPriority t →
      (NewAnalyzed policy).Extract (SampleByRate samplerHasher) t b = []) ∧
    (HighPriority t ↔ t.GetSamplingPriority.2 = true ∧ 2 ≤ t.GetSamplingPriority.1) := by
  have hone : ∀ ws, policyRate policy ws = some 1 →
      Eligible (SampleByRate samplerHasher) policy t ws := by
    intro ws h
    exact ⟨1, h, Or.inr (sampleByRate_one _ _)⟩
  have hzero : ∀ ws, policyRate policy ws = some 0 →
      (Eligible (SampleByRate samplerHasher) policy t ws ↔ HighPriority t) := by
    intro ws h
    constructor
    · rintro ⟨r, hr, hk⟩
      rw [h] at hr
      cases hr
      rcases hk with hk | hk
      · exact hk
      · rw [sampleByRate_zero] at hk
        cases hk
    · intro hp
      exact ⟨0, h, Or.inl hp⟩
  refine ⟨fun traceID => ⟨sampleByRate_zero _ _, sampleByRate_one _ _⟩, ?_, ?_, ?_,
    highPriority_iff_returned t⟩
  · intro ws h
    refine ⟨(analyzed_shouldAnalyze_iff _ policy t ws).mpr (hone ws h), ?_⟩
    intro hmem
    rw [analyzed_extract_eq, List.mem_map]
    exact ⟨ws, List.mem_filter.mpr ⟨hmem, decide_eq_true (hone ws h)⟩, rfl⟩
  · intro ws h
    rw [analyzed_shouldAnalyze_iff]
    exact hzero ws h
  · intro hall hp
    rw [analyzed_extract_eq, List.map_eq_nil_iff, List.filter_eq_nil_iff]
    intro ws hmem
    rw [decide_eq_true_iff]
    rcases hall ws hmem with h | h
    · rw [hzero ws h]
      exact hp
    · rintro ⟨r, hr, -⟩
      rw [h] at hr
      cases hr

/-- Claim C21 on the cases of `TestTransactionSampler`, run with the rate sampler
and the example constant: the span of `myService` (rate 1) yields an event, the
span of `mySampledService` (rate 0) yields none without a priority, and none
with a root metric of 10^19, which the 64-bit `int(v)` turns into the smallest
`int64`. -/
theorem sampleByRate_zero_and_one_witness :
    (NewAnalyzed testPolicy).Extract (SampleByRate exampleHasher)
        (createTrace "myService" "myOperation" true false 0) true =
      [{ Span := { Service := "myService", Name := "myOperation" }, TraceSampled := true }] ∧
    (NewAnalyzed testPolicy).Extract (SampleByRate exampleHasher)
        (createTrace "mySampledService" "myOperation" true false 0) true = [] ∧
    (NewAnalyzed testPolicy).Extract (SampleByRate exampleHasher)
        (createTrace "mySampledService" "myOperation" true true (10 ^ 19)) true = [] := by
  refine ⟨?_, ?_, ?_⟩
  · have hmem := ((sampleByRate_zero_and_one exampleHasher testPolicy
      (createTrace "myService" "myOperation" true false 0) true).2.1
      { TopLevel := true, Span := { Service := "myService", Name := "myOperation" } }
      (by decide)).2 (by decide)
    have hlen : ((NewAnalyzed testPolicy).Extract (SampleByRate exampleHasher)
        (createTrace "myService" "myOperation" true false 0) true).length ≤ 1 := by
      rw [analyzed_extract_eq]
      exact (List.length_map _ _).le.trans ((List.length_filter_le _ _).trans (by decide))
    rcases hl : (NewAnalyzed testPolicy).Extract (SampleByRate exampleHasher)
        (createTrace "myService" "myOperation" true false 0) true with _ | ⟨e, rest⟩
    · rw [hl] at hmem
      cases hmem
    · rw [hl] at hmem hlen
      cases rest with
      | nil =>
        simp only [List.mem_singleton] at hmem
        rw [← hmem]
      | cons e2 rest2 =>
        simp at hlen
  · exact (sampleByRate_zero_and_one exampleHasher testPolicy
      (createTrace "mySampledService" "myOperation" true false 0) true).2.2.2.1
      (by decide) (by decide)
  · exact (sampleByRate_zero_and_one exampleHasher testPolicy
      (createTrace "mySampledService" "myOperation" true true (10 ^ 19)) true).2.2.2.1
      (by decide) (by decide)

/-- Two lists related element by element give the same filtered and mapped
list when related elements pass the tests alike and are mapped alike. -/
theorem filter_map_eq_of_related {α β : Type} (R : α → α → Prop) (p q : α → Bool)
    (f g : α → β) (h : ∀ a c, R a c → p a = q c ∧ f a = g c) (l1 l2 : List α)
    (hl : List.Forall₂ R l1 l2) :
    (l1.filter p).map f = (l2.filter q).map g := by
  induction hl with
  | nil => rfl
  | @cons a c rest1 rest2 hac _ ih =>
    obtain ⟨hpq, hfg⟩ := h a c hac
    by_cases hq : q c = true
    · have hp : p a = true := by rw [hpq, hq]
      simp [List.filter_cons, hp, hq, hfg, ih]
    · have hp : ¬ p a = true := by rw [hpq]; exact hq
      simp [List.filter_cons, hp, hq, ih]

/-- Eligibility under the current policy reads the span and the root of the
trace only. -/
theorem eligible_congr (SampleByRate : Nat → Rate → Bool) (policy : GoMap (GoMap Rate))
    (t1 t2 : ProcessedTrace) (a c : WeightedSpan) (hroot : t1.Root = t2.Root)
    (hspan : a.Span = c.Span) :
    Eligible SampleByRate policy t1 a ↔ Eligible SampleByRate policy t2 c := by
  unfold Eligible policyRate HighPriority
  rw [hroot, hspan]

/-- Claim C22: the current-policy `Extract` does not depend on the top-level flag:
for every policy and cap and every two traces whose weighted spans carry, position
by position, the same span and weight (their `TopLevel` flags are free) and that
have the same root, `transactionSampler.Extract` and `AnalyzedExtractor.Extract`
return the same spans. -/
theorem current_extract_ignores_topLevel (SampleByRate : Nat → Rate → Bool)
    (policy : GoMap (GoMap Rate)) (n : Int) (t1 t2 : ProcessedTrace) (b : Bool)
    (hroot : t1.Root = t2.Root)
    (hspans : List.Forall₂ (fun a c => a.Span = c.Span ∧ a.Weight = c.Weight)
      t1.WeightedTrace t2.WeightedTrace) :
    (newTransactionSampler policy n).Extract SampleByRate t1 =
      (newTransactionSampler policy n).Extract SampleByRate t2 ∧
    (NewAnalyzed policy).Extract SampleByRate t1 b =
      (NewAnalyzed policy).Extract SampleByRate t2 b := by
  constructor
  · rw [transaction_extract_eq_capped, transaction_extract_eq_capped]
    congr 1
    apply filter_map_eq_of_related _ _ _ _ _ _ _ _ hspans
    intro a c hac
    refine ⟨?_, hac.1⟩
    rw [Bool.eq_iff_iff, decide_eq_true_iff, decide_eq_true_iff]
    exact eligible_congr SampleByRate policy t1 t2 a c hroot hac.1
  · rw [analyzed_extract_eq, analyzed_extract_eq]
    apply filter_map_eq_of_related _ _ _ _ _ _ _ _ hspans
    intro a c hac
    refine ⟨?_, by rw [hac.1]⟩
    rw [Bool.eq_iff_iff, decide_eq_true_iff, decide_eq_true_iff]
    exact eligible_congr SampleByRate policy t1 t2 a c hroot hac.1

/-- Claim C22 on two cases of `TestTransactionSampler`: the matching span is
extracted from the trace where it is top-level and from the trace where it is
not. -/
theorem current_extract_ignores_topLevel_witness :
    (createTrace "myService" "myOperation" true false 0).Root =
      (createTrace "myService" "myOperation" false false 0).Root ∧
    (newTransactionSampler testPolicy 10).Extract keepAtFullRate
        (createTrace "myService" "myOperation" false false 0) =
      [{ Service := "myService", Name := "myOperation" }] ∧
    (newTransactionSampler testPolicy 10).Extract keepAtFullRate
        (createTrace "myService" "myOperation" true false 0) =
      (newTransactionSampler testPolicy 10).Extract keepAtFullRate
        (createTrace "myService" "myOperation" false false 0) :=
  ⟨rfl, by decide,
    (current_extract_ignores_topLevel keepAtFullRate testPolicy 10
      (createTrace "myService" "myOperation" true false 0)
      (createTrace "myService" "myOperation" false false 0) true rfl
      (List.Forall₂.cons ⟨rfl, rfl⟩ List.Forall₂.nil)).1⟩

/-- Claim C23, as stated, fails for `legacyTransactionSampler` in its last part:
with a cap of 1 and two top-level spans of a service at rate 1 that the rate
sampler keeps, the second span is eligible and is not emitted. -/
theorem legacy_eligible_span_cut_by_cap :
    ({ TopLevel := true, Span := webSecond } : WeightedSpan) ∈ twoWebSpansTrace.WeightedTrace ∧
    LegacyEligible keepAtFullRate legacyPolicy { TopLevel := true, Span := webSecond } ∧
    webSecond ∉ (newLegacyTransactionSampler legacyPolicy 1).Extract keepAtFullRate
      twoWebSpansTrace := by
  decide

/-- Eligibility under the legacy policy reads the top-level flag, the service and
the trace id of the span only. -/
theorem legacyEligible_rewrite (SampleByRate : Nat → Rate → Bool) (policy : GoMap Rate)
    (f : Span → Span) (hf : ∀ s, (f s).Service = s.Service ∧ (f s).TraceID = s.TraceID)
    (ws : WeightedSpan) :
    LegacyEligible SampleByRate policy { ws with Span := f ws.Span } ↔
      LegacyEligible SampleByRate policy ws := by
  unfold LegacyEligible
  simp only [(hf ws.Span).1, (hf ws.Span).2]

/-- Claim C23, amended: the legacy-policy `Extract` ignores the sampling priority
and every other metric: rewriting the spans of a trace in a way that keeps their
service and trace id (such as setting or removing the root's sampling priority),
and replacing its root, makes `LegacyAnalyzedExtractor.Extract` and
`legacyTransactionSampler.Extract` return the same spans, rewritten.
`LegacyAnalyzedExtractor.Extract` emits a span iff it is top-level, its service maps
to a rate `r` and `SampleByRate(TraceID, r)` holds; `legacyTransactionSampler.Extract`
emits the first `n` of these spans when its cap `n` is not negative, all of them
otherwise. -/
theorem legacy_extract_ignores_priority (SampleByRate : Nat → Rate → Bool)
    (policy : GoMap Rate) (n : Int) (t : ProcessedTrace) (b : Bool)
    (f : Span → Span) (root : Option Span)
    (hf : ∀ s, (f s).Service = s.Service ∧ (f s).TraceID = s.TraceID) :
    (NewLegacyAnalyzed policy).Extract SampleByRate (rewriteSpans f root t) b =
      ((NewLegacyAnalyzed policy).Extract SampleByRate t b).map
        (fun e => { e with Span := f e.Span }) ∧
    (newLegacyTransactionSampler policy n).Extract SampleByRate (rewriteSpans f root t) =
      ((newLegacyTransactionSampler policy n).Extract SampleByRate t).map f ∧
    (NewLegacyAnalyzed policy).Extract SampleByRate t b =
      (t.WeightedTrace.filter (fun ws => decide (LegacyEligible SampleByRate policy ws))).map
        (fun ws => { Span := ws.Span, TraceSampled := b }) ∧
    (newLegacyTransactionSampler policy n).Extract SampleByRate t =
      capped n ((t.WeightedTrace.filter
        (fun ws => decide (LegacyEligible SampleByRate policy ws))).map (fun ws => ws.Span)) := by
  have hfilter : (rewriteSpans f root t).WeightedTrace.filter
        (fun ws => decide (LegacyEligible SampleByRate policy ws)) =
      (t.WeightedTrace.filter (fun ws => decide (LegacyEligible SampleByRate policy ws))).map
        (fun ws => { ws with Span := f ws.Span }) := by
    simp only [rewriteSpans, List.filter_map]
    congr 1
    apply List.filter_congr
    intro ws _
    simp only [Function.comp_apply]
    rw [Bool.eq_iff_iff, decide_eq_true_iff, decide_eq_true_iff]
    exact legacyEligible_rewrite SampleByRate policy f hf ws
  refine ⟨?_, ?_, legacy_extract_eq SampleByRate policy t b,
    legacyTransaction_extract_eq_capped SampleByRate policy n t⟩
  · rw [legacy_extract_eq, legacy_extract_eq, hfilter]
    simp [List.map_map, Function.comp_def]
  · rw [legacyTransaction_extract_eq_capped, legacyTransaction_extract_eq_capped, hfilter]
    unfold capped
    split
    · simp [List.map_map, Function.comp_def]
    · simp [List.map_map, Function.comp_def, List.map_take]

/-- The amended claim C23 on the trace of two `web` spans: giving the root the
sampling priority 2 changes nothing to what the legacy extractors select. -/
theorem legacy_extract_ignores_priority_witness :
    (∀ s, (setPriority 1 2 s).Service = s.Service ∧ (setPriority 1 2 s).TraceID = s.TraceID) ∧
    (NewLegacyAnalyzed legacyPolicy).Extract keepAtFullRate
        (rewriteSpans (setPriority 1 2) (some (setPriority 1 2 webRoot)) twoWebSpansTrace) true =
      [{ Span := setPriority 1 2 webRoot, TraceSampled := true },
       { Span := webSecond, TraceSampled := true }] ∧
    (newLegacyTransactionSampler legacyPolicy 1).Extract keepAtFullRate
        (rewriteSpans (setPriority 1 2) (some (setPriority 1 2 webRoot)) twoWebSpansTrace) =
      ((newLegacyTransactionSampler legacyPolicy 1).Extract keepAtFullRate twoWebSpansTrace).map
        (setPriority 1 2) := by
  have hf : ∀ s, (setPriority 1 2 s).Service = s.Service ∧
      (setPriority 1 2 s).TraceID = s.TraceID := by
    intro s
    unfold setPriority
    split <;> simp
  exact ⟨hf, by decide,
    (legacy_extract_ignores_priority keepAtFullRate legacyPolicy 1 twoWebSpansTrace true
      (setPriority 1 2) (some (setPriority 1 2 webRoot)) hf).2.1⟩

/-- Claim C24, on the code: in the batch sampler built by `FromConf` the backing
rate counter never receives `CountSampled`, because `SamplerChain.Sample` does not
invoke the decision callback and the `MaxEPSSampler` counts on a read-only view.
Over a recording counter, a batch of an event of a sampled trace and an event of
an unsampled trace is kept whole and the counter has received no `CountSampled`
call, where the claim has two; and for every counter and batch the result is the
one obtained with a counter whose `CountSampled` does nothing. -/
theorem fromConf_never_counts_sampled :
    (eventsampler.FromConf keepAtFullRate recordingRateCounter epsConf {}).1.Sample
        [sampledEvent, unsampledEvent]
        (eventsampler.FromConf keepAtFullRate recordingRateCounter epsConf {}).2 =
      ([sampledEvent, unsampledEvent], { countSampled := 0, getSampledRate := 1 }) ∧
    (∀ (σ : Type) (SampleByRate : Nat → Rate → Bool) (rateCounter : RateCounter σ)
        (conf : AgentConfig) (events : List APMEvent) (st0 st : σ),
      (eventsampler.FromConf SampleByRate rateCounter conf st0).1.Sample events st =
        (eventsampler.FromConf SampleByRate
          { rateCounter with CountSampled := fun st1 => st1 } conf st0).1.Sample events st) :=
  ⟨by decide, fun _ _ _ _ _ _ _ => rfl⟩

/-- Claim C25, as stated, fails: there is no legacy policy, cap `n > 0` and trace
with at least `n` eligible spans for which `legacyTransactionSampler.Extract`
returns fewer than `n` spans, whatever the rate sampler is. -/
theorem legacy_cap_never_short :
    ¬ ∃ (SampleByRate : Nat → Rate → Bool) (policy : GoMap Rate) (n : Int) (t : ProcessedTrace),
      0 < n ∧
      n ≤ ((t.WeightedTrace.filter
        (fun ws => decide (LegacyEligible SampleByRate policy ws))).length : Int) ∧
      (((newLegacyTransactionSampler policy n).Extract SampleByRate t).length : Int) < n := by
  rintro ⟨SampleByRate, policy, n, t, hn, hk, hlt⟩
  rw [legacyTransaction_extract_eq_capped] at hlt
  unfold capped at hlt
  rw [if_neg (by omega), List.length_take, List.length_map] at hlt
  omega

/-- Claim C25, amended: the legacy extractor checks the cap before the eligibility
test, and the result is the same as with the check after it: for every legacy
policy, cap `n >= 0` and trace with `k` eligible spans (top-level, service in the
policy, kept by `SampleByRate`), `legacyTransactionSampler.Extract` returns the
first `min(n, k)` eligible spans in trace order, hence `n` spans whenever at
least `n` are eligible. -/
theorem legacy_cap_exact (SampleByRate : Nat → Rate → Bool) (policy : GoMap Rate) (n : Int)
    (t : ProcessedTrace) (hn : 0 ≤ n) :
    (newLegacyTransactionSampler policy n).Extract SampleByRate t =
      ((t.WeightedTrace.filter
        (fun ws => decide (LegacyEligible SampleByRate policy ws))).map
          (fun ws => ws.Span)).take n.toNat ∧
    ((newLegacyTransactionSampler policy n).Extract SampleByRate t).length =
      min n.toNat (t.WeightedTrace.filter
        (fun ws => decide (LegacyEligible SampleByRate policy ws))).length ∧
    (n ≤ ((t.WeightedTrace.filter
        (fun ws => decide (LegacyEligible SampleByRate policy ws))).length : Int) →
      (((newLegacyTransactionSampler policy n).Extract SampleByRate t).length : Int) = n) := by
  have heq : (newLegacyTransactionSampler policy n).Extract SampleByRate t =
      ((t.WeightedTrace.filter
        (fun ws => decide (LegacyEligible SampleByRate policy ws))).map
          (fun ws => ws.Span)).take n.toNat := by
    rw [legacyTransaction_extract_eq_capped]
    unfold capped
    rw [if_neg (by omega)]
  have hlen : ((newLegacyTransactionSampler policy n).Extract SampleByRate t).length =
      min n.toNat (t.WeightedTrace.filter
        (fun ws => decide (LegacyEligible SampleByRate policy ws))).length := by
    rw [heq, List.length_take, List.length_map]
  refine ⟨heq, hlen, ?_⟩
  intro hk
  rw [hlen]
  omega

/-- The amended claim C25 on the trace of two eligible `web` spans with a cap of
1: the legacy sampler returns one span, the first. -/
theorem legacy_cap_exact_witness :
    (0 : Int) ≤ 1 ∧
    (newLegacyTransactionSampler legacyPolicy 1).Extract keepAtFullRate twoWebSpansTrace =
      [webRoot] ∧
    ((newLegacyTransactionSampler legacyPolicy 1).Extract keepAtFullRate
      twoWebSpansTrace).length = min 1 2 :=
  ⟨by decide, by decide,
    ((legacy_cap_exact keepAtFullRate legacyPolicy 1 twoWebSpansTrace (by decide)).2.1).trans
      (by decide)⟩

/-- The lexicographic order compares any two sequences. -/
theorem lexLE_total (x y : List Nat) : lexLE x y = true ∨ lexLE y x = true := by
  induction x generalizing y with
  | nil => exact Or.inl (by simp [lexLE])
  | cons a as ih =>
    cases y with
    | nil => exact Or.inr (by simp [lexLE])
    | cons b bs =>
      rcases Nat.lt_trichotomy a b with h | h | h
      · exact Or.inl (by simp [lexLE, h])
      · subst h
        simpa [lexLE] using ih bs
      · exact Or.inr (by simp [lexLE, h])

/-- The lexicographic order is transitive. -/
theorem lexLE_trans (x y z : List Nat) (hxy : lexLE x y = true) (hyz : lexLE y z = true) :
    lexLE x z = true := by
  induction x generalizing y z with
  | nil => simp [lexLE]
  | cons a as ih =>
    cases y with
    | nil => simp [lexLE] at hxy
    | cons b bs =>
      cases z with
      | nil => simp [lexLE] at hyz
      | cons c cs =>
        unfold lexLE at hxy hyz ⊢
        by_cases hab : a < b
        · by_cases hbc : b < c
          · simp [show a < c by omega]
          · by_cases hcb : c < b
            · simp [hbc, hcb] at hyz
            · have hbceq : b = c := by omega
              subst hbceq
              simp [hab]
        · by_cases hba : b < a
          · simp [hab, hba] at hxy
          · have habeq : a = b := by omega
            subst habeq
            simp only [hab, if_false] at hxy
            by_cases hac : a < c
            · simp [hac]
            · by_cases hca : c < a
              · simp [hac, hca] at hyz
              · simp only [hac, hca, if_false] at hyz ⊢
                exact ih bs cs hxy hyz

/-- The lexicographic order is antisymmetric. -/
theorem lexLE_antisymm (x y : List Nat) (hxy : lexLE x y = true) (hyx : lexLE y x = true) :
    x = y := by
  induction x generalizing y with
  | nil =>
    cases y with
    | nil => rfl
    | cons b bs => simp [lexLE] at hyx
  | cons a as ih =>
    cases y with
    | nil => simp [lexLE] at hxy
    | cons b bs =>
      unfold lexLE at hxy hyx
      by_cases hab : a < b
      · have hba : ¬ b < a := by omega
        simp [hab, hba] at hyx
      · by_cases hba : b < a
        · simp [hab, hba] at hxy
        · have habeq : a = b := by omega
          subst habeq
          simp only [hab, if_false] at hxy hyx
          rw [ih bs hxy hyx]

/-- Two strings with the same character codes are the same string. -/
theorem string_eq_of_codes (a b : String)
    (h : a.data.map Char.toNat = b.data.map Char.toNat) : a = b := by
  have hinj : Function.Injective Char.toNat := by
    intro c d hcd
    have hc := Char.ofNat_toNat c
    have hd := Char.ofNat_toNat d
    rw [← hc, ← hd, hcd]
  exact String.ext (List.map_injective_iff.mpr hinj h)

/-- The library call `sort.Strings` returns a sorted arrangement of its argument,
and the same list for two arrangements of the same strings. -/
theorem sortStrings_canonical (l1 l2 : List String) (h : l1.Perm l2) :
    sortStrings l1 = sortStrings l2 ∧
    (sortStrings l1).Sorted (fun a b => stringLE a b = true) ∧
    (sortStrings l1).Perm l1 := by
  haveI htotal : IsTotal String (fun a b => stringLE a b = true) :=
    ⟨fun a b => lexLE_total _ _⟩
  haveI htrans : IsTrans String (fun a b => stringLE a b = true) :=
    ⟨fun a b c hab hbc => lexLE_trans _ _ _ hab hbc⟩
  haveI hanti : IsAntisymm String (fun a b => stringLE a b = true) :=
    ⟨fun a b hab hba => string_eq_of_codes a b (lexLE_antisymm _ _ hab hba)⟩
  have hs1 := List.sorted_insertionSort (fun a b => stringLE a b = true) l1
  have hs2 := List.sorted_insertionSort (fun a b => stringLE a b = true) l2
  have hp1 := List.perm_insertionSort (fun a b => stringLE a b = true) l1
  have hp2 := List.perm_insertionSort (fun a b => stringLE a b = true) l2
  exact ⟨List.eq_of_perm_of_sorted (hp1.trans (h.trans hp2.symm)) hs1 hs2, hs1, hp1⟩

/-- Claim C26: the key computed by `NewCount` is canonical: for every metric name
`m` and every two tag sets that are permutations of each other the keys are
equal; the tags part of the key is the `name:value` strings of the tags, sorted
in increasing order and joined by commas; the new count has `Value` 0 and keeps
the given name and tag set. -/
theorem newCount_key_canonical (m : String) (T1 T2 : TagSet) (h : T1.Perm T2) :
    (NewCount m T1).Key = (NewCount m T2).Key ∧
    (NewCount m T1).Key =
      "Count(name=" ++ m ++ ",tags=" ++
        stringsJoin (sortStrings (T1.map (fun t => t.Name ++ ":" ++ t.Value))) "," ++ ")" ∧
    (sortStrings (T1.map (fun t => t.Name ++ ":" ++ t.Value))).Sorted
      (fun a b => stringLE a b = true) ∧
    (sortStrings (T1.map (fun t => t.Name ++ ":" ++ t.Value))).Perm
      (T1.map (fun t => t.Name ++ ":" ++ t.Value)) ∧
    (NewCount m T1).Value = 0 ∧
    (NewCount m T1).Name = m ∧
    (NewCount m T1).TagSet = T1 := by
  have hcanon := sortStrings_canonical (T1.map tagString) (T2.map tagString) (h.map tagString)
  refine ⟨?_, rfl, hcanon.2.1, hcanon.2.2, rfl, rfl, rfl⟩
  simp only [NewCount]
  rw [hcanon.1]

/-- Claim C26 on the tag set `{service, resource}` of the example span, given in
both orders: the key is the same, with the resource tag first. -/
theorem newCount_key_canonical_witness :
    webByServiceResource.Perm webByServiceResource.reverse ∧
    (NewCount HITS webByServiceResource).Key = "Count(name=hits,tags=resource:GET /,service:web)" ∧
    (NewCount HITS webByServiceResource.reverse).Key =
      "Count(name=hits,tags=resource:GET /,service:web)" ∧
    (NewCount HITS webByServiceResource).Key = (NewCount HITS webByServiceResource.reverse).Key :=
  ⟨(List.reverse_perm _).symm, by decide, by decide,
    (newCount_key_canonical HITS webByServiceResource webByServiceResource.reverse
      (List.reverse_perm _).symm).1⟩

end TraceAgent
